import Mathlib

/-!
Verification of the canon-weaver core against its specification.

This file gives a shallow embedding of the two core subsystems:
the branching conversation tree (src/lib/llm/chatTree.ts) and the
world-state patch-merge engine (src/lib/llm/stateManager.ts), and proves
or refutes the frozen claims about them.

JavaScript objects and `Map`s keyed by strings are embedded as
association lists (`JsMap`): `Map.set` / object spread with a computed
key replaces the value of the first matching key in place (keeping its
position) or appends a fresh pair at the end; `Map.delete` removes the
pair; `Map.prototype.values()` and `Object.values` iterate in that
insertion order.  Maps arising in the sources never hold a duplicate
key, and all operations below preserve that.
-/

set_option autoImplicit false

namespace CanonWeaver

universe u

/-- Association list with string keys, embedding a JS `Map` / plain object. -/
abbrev JsMap (α : Type u) : Type u := List (String × α)

/-- Lookup (`m.get(k)` / `obj[k]`): first pair whose key matches. -/
def mapGet? {α : Type u} (m : JsMap α) (k : String) : Option α :=
  match m with
  | [] => none
  | (k2, v) :: rest => if k2 == k then some v else mapGet? rest k

/-- `m.has(k)` / truthiness of `obj[k]`. -/
def mapHas {α : Type u} (m : JsMap α) (k : String) : Bool :=
  (mapGet? m k).isSome

/-- `m.set(k, v)` / `{...obj, [k]: v}`: replace in place or append. -/
def mapSet {α : Type u} (m : JsMap α) (k : String) (v : α) : JsMap α :=
  match m with
  | [] => [(k, v)]
  | (k2, v2) :: rest => if k2 == k then (k, v) :: rest else (k2, v2) :: mapSet rest k v

/-- `m.delete(k)`. -/
def mapDelete {α : Type u} (m : JsMap α) (k : String) : JsMap α :=
  m.filter (fun pr => !(pr.1 == k))

/-- `Array.from(m.values())`: values in insertion order. -/
def mapValues {α : Type u} (m : JsMap α) : List α :=
  m.map (fun pr => pr.2)

/-- `new Map(l.map(x => [key x, x]))`: insert every element in order. -/
def mapFromList {α : Type u} (key : α → String) (l : List α) : JsMap α :=
  l.foldl (fun m x => mapSet m (key x) x) []

@[simp] theorem mapGet?_nil {α : Type u} (k : String) :
    mapGet? ([] : JsMap α) k = none := rfl

@[simp] theorem mapGet?_cons {α : Type u} (k2 : String) (v : α) (rest : JsMap α) (k : String) :
    mapGet? ((k2, v) :: rest) k = if k2 == k then some v else mapGet? rest k := rfl

@[simp] theorem mapGet?_set_self {α : Type u} (m : JsMap α) (k : String) (v : α) :
    mapGet? (mapSet m k v) k = some v := by
  induction m with
  | nil => simp [mapSet]
  | cons hd tl ih =>
    obtain ⟨k2, v2⟩ := hd
    by_cases h : k2 = k
    · simp [mapSet, h]
    · simp [mapSet, h, ih]

theorem mapGet?_set_ne {α : Type u} (m : JsMap α) (k k2 : String) (v : α) (h : k ≠ k2) :
    mapGet? (mapSet m k v) k2 = mapGet? m k2 := by
  induction m with
  | nil => simp [mapSet, h]
  | cons hd tl ih =>
    obtain ⟨k3, v3⟩ := hd
    by_cases h3 : k3 = k
    · subst h3
      simp [mapSet, h]
    · simp [mapSet, h3, ih]

@[simp] theorem mapGet?_delete_self {α : Type u} (m : JsMap α) (k : String) :
    mapGet? (mapDelete m k) k = none := by
  induction m with
  | nil => rfl
  | cons hd tl ih =>
    obtain ⟨k2, v2⟩ := hd
    simp only [mapDelete, List.filter_cons] at ih ⊢
    by_cases h : k2 = k
    · simp [h, ih]
    · simp [h, ih]

theorem mapGet?_delete_ne {α : Type u} (m : JsMap α) (k k2 : String) (h : k ≠ k2) :
    mapGet? (mapDelete m k) k2 = mapGet? m k2 := by
  induction m with
  | nil => rfl
  | cons hd tl ih =>
    obtain ⟨k3, v3⟩ := hd
    simp only [mapDelete, List.filter_cons] at ih ⊢
    by_cases h3 : k3 = k
    · subst h3
      simp [h, ih]
    · by_cases h2 : k3 = k2
      · simp [h3, h2, Ne.symm h]
      · simp [h3, h2, ih]

theorem mapGet?_eq_none_iff {α : Type u} (m : JsMap α) (k : String) :
    mapGet? m k = none ↔ ∀ pr ∈ m, pr.1 ≠ k := by
  induction m with
  | nil => simp
  | cons hd tl ih =>
    obtain ⟨k2, v2⟩ := hd
    by_cases h : k2 = k
    · simp [h]
    · simp [h, ih]

theorem mem_values_of_mapGet? {α : Type u} {m : JsMap α} {k : String} {v : α}
    (h : mapGet? m k = some v) : v ∈ mapValues m := by
  induction m with
  | nil => simp [mapGet?] at h
  | cons hd tl ih =>
    obtain ⟨k2, v2⟩ := hd
    by_cases h2 : k2 = k
    · simp [h2] at h
      simp [mapValues, h]
    · simp [h2] at h
      simp [mapValues]
      right
      simpa [mapValues] using ih h

theorem mapHas_iff {α : Type u} (m : JsMap α) (k : String) :
    mapHas m k = true ↔ ∃ v, mapGet? m k = some v := by
  simp [mapHas, Option.isSome_iff_exists]

theorem mapHas_eq_false_iff {α : Type u} (m : JsMap α) (k : String) :
    mapHas m k = false ↔ mapGet? m k = none := by
  cases h : mapGet? m k <;> simp [mapHas, h]

/-- Every stored value carries its own key (maps keyed by `key x`). -/
def KeyCoherent {α : Type u} (key : α → String) (m : JsMap α) : Prop :=
  ∀ pr ∈ m, key pr.2 = pr.1

theorem keyCoherent_nil {α : Type u} (key : α → String) :
    KeyCoherent key ([] : JsMap α) := by
  intro pr h
  simp at h

theorem keyCoherent_set {α : Type u} {key : α → String} {m : JsMap α} {k : String} {v : α}
    (hm : KeyCoherent key m) (hv : key v = k) : KeyCoherent key (mapSet m k v) := by
  induction m with
  | nil =>
    intro pr h
    simp [mapSet] at h
    simp [h, hv]
  | cons hd tl ih =>
    obtain ⟨k2, v2⟩ := hd
    have htl : KeyCoherent key tl := fun pr h => hm pr (List.mem_cons_of_mem _ h)
    intro pr h
    by_cases h2 : k2 = k
    · simp [mapSet, h2] at h
      rcases h with h | h
      · simp [h, hv]
      · exact hm pr (List.mem_cons_of_mem _ h)
    · simp [mapSet, h2] at h
      rcases h with h | h
      · exact hm pr (by simp [h])
      · exact ih htl pr h

theorem keyCoherent_delete {α : Type u} {key : α → String} {m : JsMap α} {k : String}
    (hm : KeyCoherent key m) : KeyCoherent key (mapDelete m k) := by
  intro pr h
  exact hm pr (List.mem_of_mem_filter h)

theorem keyCoherent_fromList {α : Type u} (key : α → String) (l : List α) :
    KeyCoherent key (mapFromList key l) := by
  have main : ∀ (l : List α) (m : JsMap α), KeyCoherent key m →
      KeyCoherent key (l.foldl (fun m x => mapSet m (key x) x) m) := by
    intro l
    induction l with
    | nil => intro m hm; simpa using hm
    | cons hd tl ih =>
      intro m hm
      exact ih _ (keyCoherent_set hm rfl)
  exact main l [] (keyCoherent_nil key)

theorem values_key_ne_of_get_none {α : Type u} {key : α → String} {m : JsMap α} {k : String}
    (hm : KeyCoherent key m) (h : mapGet? m k = none) :
    ∀ v ∈ mapValues m, key v ≠ k := by
  intro v hv
  rcases List.mem_map.mp hv with ⟨pr, hpr, hpr2⟩
  have := (mapGet?_eq_none_iff m k).mp h pr hpr
  rw [← hpr2, hm pr hpr]
  exact this

theorem mapGet?_fromList_none {α : Type u} (key : α → String) (l : List α) (k : String)
    (h : ∀ x ∈ l, key x ≠ k) : mapGet? (mapFromList key l) k = none := by
  have main : ∀ (l : List α) (m : JsMap α), (∀ x ∈ l, key x ≠ k) → mapGet? m k = none →
      mapGet? (l.foldl (fun m x => mapSet m (key x) x) m) k = none := by
    intro l
    induction l with
    | nil => intro m _ hm; simpa using hm
    | cons hd tl ih =>
      intro m hl hm
      have hhd : key hd ≠ k := hl hd (by simp)
      refine ih _ (fun x hx => hl x (List.mem_cons_of_mem _ hx)) ?_
      rw [mapGet?_set_ne _ _ _ _ hhd]
      exact hm
  exact main l [] h rfl

/-- Generic frame lemma: folding entries whose keys differ from `k` over any
step function that only touches its entry's key leaves the binding at `k` alone. -/
theorem foldl_mapGet?_eq {α : Type u} {β : Type u} (f : JsMap α → β → JsMap α)
    (key : β → String) (k : String)
    (hf : ∀ (m : JsMap α) (e : β), key e ≠ k → mapGet? (f m e) k = mapGet? m k)
    (l : List β) (hl : ∀ e ∈ l, key e ≠ k) (m : JsMap α) :
    mapGet? (l.foldl f m) k = mapGet? m k := by
  induction l generalizing m with
  | nil => rfl
  | cons hd tl ih =>
    have hhd : key hd ≠ k := hl hd (by simp)
    rw [List.foldl_cons, ih (fun e he => hl e (List.mem_cons_of_mem _ he)), hf m hd hhd]

/-! ## World-state data model

From the current revision of the domain schema: `WorldStateSchema` with
its `player` section, `EntityStateSchema`, `QuestSchema`, `ThreadSchema`,
`PlayerStateSchema`, `SceneStateSchema` and `LocationSchema`, staged as
the second document of src/src/lib/persistence.ts (lines 92-226) —
src/src/lib/domain/schema.ts holds an older revision.  Every zod
`.optional()` field becomes an `Option`.  Attribute values
(`string | number | boolean`) are carried opaquely; the merge never
computes with them, it only compares attribute keys. -/

/-- JS attribute value `string | number | boolean` (carried opaquely). -/
inductive AttrVal : Type where
  | str (s : String)
  | num (n : Int)
  | bool (b : Bool)
  deriving DecidableEq

/-- One `{key, value}` attribute entry. -/
structure Attr : Type where
  key : String
  value : AttrVal
  deriving DecidableEq

/-- `LocationSchema` (persistence.ts lines 92-96): `{id?, name, detail?}`. -/
structure LocationRef : Type where
  id : Option String
  name : String
  detail : Option String
  deriving DecidableEq

/-- `SceneStateSchema` (persistence.ts lines 166-172). -/
structure SceneState : Type where
  location : LocationRef
  time : String
  weather : Option String
  atmosphere : Option String
  deriving DecidableEq

/-- `PlayerStateSchema` (persistence.ts lines 148-163). -/
structure PlayerState : Type where
  name : String
  location : LocationRef
  condition : String
  activity : Option String
  intent : Option String
  inventory : List String
  capabilities : List String
  attributes : List Attr
  deriving DecidableEq

/-- `EntityStateSchema` (persistence.ts lines 99-123). -/
structure EntityState : Type where
  id : String
  canonId : Option String
  name : String
  location : LocationRef
  activity : String
  condition : String
  intent : Option String
  relationToPlayer : String
  attributes : List Attr
  deriving DecidableEq

/-- One quest step. -/
structure QuestStep : Type where
  description : String
  completed : Bool
  deriving DecidableEq

inductive QuestStatus : Type where
  | ACTIVE | COMPLETED | FAILED | PAUSED
  deriving DecidableEq

/-- `QuestSchema` (persistence.ts lines 128-143).  A quest freshly
inserted by the merge is the patch entry cast to this type
(`q as QuestState`), so `steps`/`attributes` take the schema default `[]`
when the entry supplies none. -/
structure QuestState : Type where
  id : String
  label : String
  description : Option String
  status : QuestStatus
  steps : List QuestStep
  attributes : List Attr
  deriving DecidableEq

inductive ThreadStatus : Type where
  | UNRESOLVED | RESOLVED | ABANDONED
  deriving DecidableEq

/-- `ThreadSchema` (persistence.ts lines 174-178): `status` required. -/
structure ThreadState : Type where
  id : String
  description : String
  status : ThreadStatus
  deriving DecidableEq

/-- The authoritative world-state snapshot. -/
structure WorldState : Type where
  scene : SceneState
  player : PlayerState
  entities : List EntityState
  quests : List QuestState
  threads : List ThreadState
  facts : List String
  hypotheses : List String
  secrets : List String
  deriving DecidableEq

/-! ## State patch (from the zod schema in src/lib/llm/stateManager.ts)

Every optional zod field becomes an `Option`; an absent key of a parsed
patch object is `none`.  `applyStatePatch` guards each top-level section
with a truthiness test, so `scene`/`player` (required in the schema) are
also embedded as `Option` — the function's behavior is defined either way. -/

/-- `{add?, remove?}` lists for set-like fields. -/
structure AddRemove : Type where
  add : Option (List String)
  remove : Option (List String)
  deriving DecidableEq

/-- Location override with a required name (scene/player patches). -/
structure LocPatchReq : Type where
  name : String
  detail : Option String
  deriving DecidableEq

/-- Location override with all fields optional (entity patches). -/
structure LocPatchOpt : Type where
  name : Option String
  detail : Option String
  deriving DecidableEq

structure ScenePatch : Type where
  time : String
  location : LocPatchReq
  atmosphere : Option String
  deriving DecidableEq

structure PlayerPatch : Type where
  condition : String
  location : LocPatchReq
  inventory : Option AddRemove
  capabilities : Option AddRemove
  attributes : Option (List Attr)
  deriving DecidableEq

structure EntityPatch : Type where
  id : String
  name : Option String
  condition : Option String
  activity : Option String
  relationToPlayer : Option String
  location : Option LocPatchOpt
  attributes : Option (List Attr)
  deleted : Option Bool
  deriving DecidableEq

/-- `QuestSchema.partial().required({id})` (stateManager.ts line 61). -/
structure QuestPatch : Type where
  id : String
  label : Option String
  description : Option String
  status : Option QuestStatus
  steps : Option (List QuestStep)
  attributes : Option (List Attr)
  deriving DecidableEq

structure ThreadPatch : Type where
  id : String
  description : Option String
  status : Option ThreadStatus
  deriving DecidableEq

inductive EventType : Type where
  | SCENE_START | SCENE_END | MAJOR_DECISION | COMBAT_RESULT | ACQUISITION | LOSS | NOTE
  deriving DecidableEq

/-- Chronicle event entry (present in the patch schema; `applyStatePatch`
never reads it). -/
structure EventPatch : Type where
  summary : String
  eventType : EventType
  timestamp : String
  relatedEntityIds : Option (List String)
  deriving DecidableEq

structure StatePatch : Type where
  scene : Option ScenePatch
  player : Option PlayerPatch
  entities : Option (List EntityPatch)
  quests : Option (List QuestPatch)
  threads : Option (List ThreadPatch)
  facts : Option AddRemove
  hypotheses : Option AddRemove
  secrets : Option AddRemove
  events : Option (List EventPatch)
  deriving DecidableEq

/-! ## The patch-merge engine (src/lib/llm/stateManager.ts, applyStatePatch)

Each named helper below embeds one inline block of `applyStatePatch`,
in source order; the main function chains them exactly as the source
mutates `nextState`. -/

/-- JS `x || d` on an optional string: the empty string is falsy. -/
def jsOr (o : Option String) (d : String) : String :=
  match o with
  | some s => if s == "" then d else s
  | none => d

/-- `new Set(list)`: de-duplicate keeping the first occurrence. -/
def jsDedup : List String → List String
  | [] => []
  | x :: xs => x :: jsDedup (xs.filter (fun y => !(y == x)))
termination_by l => l.length
decreasing_by
  simp only [List.length_cons]
  exact Nat.lt_succ_of_le (List.length_filter_le _ _)

/-- Spread merge `{...cur, ...p}` for a location patch with required name
(scene line 104-107, player line 120-123). -/
def mergeLocationReq (cur : LocationRef) (p : LocPatchReq) : LocationRef :=
  { id := cur.id, name := p.name, detail := p.detail.or cur.detail }

/-- Scene block, stateManager.ts lines 100-109. -/
def mergeScene (cur : SceneState) (p : ScenePatch) : SceneState :=
  { location := mergeLocationReq cur.location p.location
    time := p.time
    weather := cur.weather
    atmosphere := p.atmosphere.or cur.atmosphere }

/-- `Set`-based add/remove for inventory/capabilities (lines 125-137):
dedup, delete every `remove` string, then add each `add` string not present. -/
def applySetAddRemove (cur : List String) (ar : AddRemove) : List String :=
  let s0 := jsDedup cur
  let s1 := match ar.remove with
    | some rem => s0.filter (fun x => !(rem.contains x))
    | none => s0
  match ar.add with
  | some add => add.foldl (fun acc x => if acc.contains x then acc else acc ++ [x]) s1
  | none => s1

/-- Player block, stateManager.ts lines 112-153.  The only scalar left in
`scalars` after destructuring is `condition`. -/
def mergePlayer (cur : PlayerState) (p : PlayerPatch) : PlayerState :=
  { name := cur.name
    activity := cur.activity
    intent := cur.intent
    location := mergeLocationReq cur.location p.location
    inventory := match p.inventory with
      | some ar => applySetAddRemove cur.inventory ar
      | none => cur.inventory
    capabilities := match p.capabilities with
      | some ar => applySetAddRemove cur.capabilities ar
      | none => cur.capabilities
    attributes := match p.attributes with
      | some pa => cur.attributes.filter (fun a => !(pa.any (fun n => n.key == a.key))) ++ pa
      | none => cur.attributes
    condition := p.condition }

/-- `{...existing.location, ...(entityPatch.location || {})}` (lines 180-183). -/
def mergeEntityLocation (cur : LocationRef) (p : Option LocPatchOpt) : LocationRef :=
  let lp := p.getD ⟨none, none⟩
  { id := cur.id, name := lp.name.getD cur.name, detail := lp.detail.or cur.detail }

/-- Entity UPDATE branch (lines 174-189).  The spread `{...existing,
...entityPatch}` overwrites every key present in the patch entry; the
`deleted` key is dropped by the `as EntityState` typed view. -/
def mergeEntity (existing : EntityState) (ep : EntityPatch) : EntityState :=
  { id := ep.id
    canonId := existing.canonId
    name := ep.name.getD existing.name
    condition := ep.condition.getD existing.condition
    activity := ep.activity.getD existing.activity
    intent := existing.intent
    relationToPlayer := ep.relationToPlayer.getD existing.relationToPlayer
    location := mergeEntityLocation existing.location ep.location
    attributes := match ep.attributes with
      | some pa => existing.attributes.filter (fun a => !(pa.any (fun q => q.key == a.key))) ++ pa
      | none => existing.attributes }

/-- Entity CREATE branch (lines 190-207): creation is allowed even without
a name; missing display fields fall back to defaults via JS `||`. -/
def createEntity (ep : EntityPatch) : EntityState :=
  let lp := ep.location.getD ⟨none, none⟩
  { id := ep.id
    canonId := none
    name := jsOr ep.name "Unknown Entity"
    location := { id := none, name := lp.name.getD "Unknown", detail := lp.detail }
    condition := jsOr ep.condition "Unknown"
    activity := jsOr ep.activity "New"
    intent := none
    relationToPlayer := jsOr ep.relationToPlayer "Neutral"
    attributes := ep.attributes.getD [] }

/-- One iteration of the entity loop (lines 161-209): skip falsy ids,
hard-delete when `deleted` is truthy, else update or create. -/
def applyEntityPatch (m : JsMap EntityState) (ep : EntityPatch) : JsMap EntityState :=
  if ep.id == "" then m
  else if ep.deleted == some true then
    (if mapHas m ep.id then mapDelete m ep.id else m)
  else
    match mapGet? m ep.id with
    | some existing => mapSet m ep.id (mergeEntity existing ep)
    | none => mapSet m ep.id (createEntity ep)

/-- Quest merge `{...old, ...q, steps: q.steps || old.steps}` (lines 218-223).
A supplied steps list (a JS array, always truthy, even empty) replaces the
old list wholesale. -/
def mergeQuest (old : QuestState) (q : QuestPatch) : QuestState :=
  { id := q.id
    label := q.label.getD old.label
    description := q.description.or old.description
    status := q.status.getD old.status
    steps := match q.steps with
      | some st => st
      | none => old.steps
    attributes := q.attributes.getD old.attributes }

/-- One iteration of the quest upsert loop (lines 216-229): merge when the
id exists, insert when `q.label && q.status` is truthy, else skip. -/
def applyQuestPatch (m : JsMap QuestState) (q : QuestPatch) : JsMap QuestState :=
  match mapGet? m q.id with
  | some old => mapSet m q.id (mergeQuest old q)
  | none =>
    match q.label, q.status with
    | some l, some st =>
      if l == "" then m
      else mapSet m q.id { id := q.id, label := l, description := q.description, status := st
                           steps := q.steps.getD [], attributes := q.attributes.getD [] }
    | _, _ => m

/-- Thread merge `{...old, ...t}` (line 238). -/
def mergeThread (old : ThreadState) (t : ThreadPatch) : ThreadState :=
  { id := t.id
    description := t.description.getD old.description
    status := t.status.getD old.status }

/-- One iteration of the thread upsert loop (lines 236-242): merge when the
id exists, insert when `t.description` is truthy, else skip.  The source
stores the partial entry itself (`t as ThreadState`); an entry omitting
`status` thus stores, at runtime, a record missing a field the schema
requires.  The schema-typed embedding completes that corner with
UNRESOLVED; no theorem below asserts anything about the completed value. -/
def applyThreadPatch (m : JsMap ThreadState) (t : ThreadPatch) : JsMap ThreadState :=
  match mapGet? m t.id with
  | some old => mapSet m t.id (mergeThread old t)
  | none =>
    match t.description with
    | some d =>
      if d == "" then m
      else mapSet m t.id
        { id := t.id, description := d, status := t.status.getD ThreadStatus.UNRESOLVED }
    | none => m

/-- Facts block (lines 247-258): ADD first (skipping strings already in the
list), THEN remove; both sides carry an extra non-empty-length guard. -/
def applyFactsPatch (cur : List String) (ar : AddRemove) : List String :=
  let l1 := match ar.add with
    | some add =>
      if add.length > 0 then cur ++ add.filter (fun it => !(cur.contains it)) else cur
    | none => cur
  match ar.remove with
  | some rem => if rem.length > 0 then l1.filter (fun it => !(rem.contains it)) else l1
  | none => l1

/-- Hypotheses/secrets blocks (lines 261-284): identical to the facts block
but without the length guards. -/
def applyHypSecretsPatch (cur : List String) (ar : AddRemove) : List String :=
  let l1 := match ar.add with
    | some add => cur ++ add.filter (fun it => !(cur.contains it))
    | none => cur
  match ar.remove with
  | some rem => l1.filter (fun it => !(rem.contains it))
  | none => l1

/-- `applyStatePatch` (stateManager.ts lines 96-287): fold every section of
the patch into a copy of the current state, in source order.  The
facts/hypotheses/secrets blocks read `currentState` (not `nextState`),
as the source does. -/
def applyStatePatch (currentState : WorldState) (patch : StatePatch) : WorldState :=
  let s1 := match patch.scene with
    | some sc => { currentState with scene := mergeScene currentState.scene sc }
    | none => currentState
  let s2 := match patch.player with
    | some p => { s1 with player := mergePlayer s1.player p }
    | none => s1
  let s3 := match patch.entities with
    | some es => { s2 with
        entities := mapValues (es.foldl applyEntityPatch (mapFromList EntityState.id s2.entities)) }
    | none => s2
  let s4 := match patch.quests with
    | some qs => { s3 with
        quests := mapValues (qs.foldl applyQuestPatch (mapFromList QuestState.id s3.quests)) }
    | none => s3
  let s5 := match patch.threads with
    | some ts => { s4 with
        threads := mapValues (ts.foldl applyThreadPatch (mapFromList ThreadState.id s4.threads)) }
    | none => s4
  let s6 := match patch.facts with
    | some f => { s5 with facts := applyFactsPatch currentState.facts f }
    | none => s5
  let s7 := match patch.hypotheses with
    | some h => { s6 with hypotheses := applyHypSecretsPatch currentState.hypotheses h }
    | none => s6
  match patch.secrets with
  | some h => { s7 with secrets := applyHypSecretsPatch currentState.secrets h }
  | none => s7

/-! ## Closed form of applyStatePatch -/

/-- Each top-level field of the result depends only on its own patch
section (the source assigns every `nextState` field at most once). -/
theorem applyStatePatch_eq (s : WorldState) (p : StatePatch) :
    applyStatePatch s p = {
      scene := match p.scene with
        | some sc => mergeScene s.scene sc
        | none => s.scene
      player := match p.player with
        | some pp => mergePlayer s.player pp
        | none => s.player
      entities := match p.entities with
        | some es => mapValues (es.foldl applyEntityPatch (mapFromList EntityState.id s.entities))
        | none => s.entities
      quests := match p.quests with
        | some qs => mapValues (qs.foldl applyQuestPatch (mapFromList QuestState.id s.quests))
        | none => s.quests
      threads := match p.threads with
        | some ts => mapValues (ts.foldl applyThreadPatch (mapFromList ThreadState.id s.threads))
        | none => s.threads
      facts := match p.facts with
        | some f => applyFactsPatch s.facts f
        | none => s.facts
      hypotheses := match p.hypotheses with
        | some h => applyHypSecretsPatch s.hypotheses h
        | none => s.hypotheses
      secrets := match p.secrets with
        | some h => applyHypSecretsPatch s.secrets h
        | none => s.secrets } := by
  rcases p with ⟨ps, pp, pe, pq, pt, pf, ph, psc, pev⟩
  cases ps <;> cases pp <;> cases pe <;> cases pq <;> cases pt <;>
    cases pf <;> cases ph <;> cases psc <;> rfl

/-! ## Frame lemmas for the per-entry upsert loops -/

theorem applyEntityPatch_get?_ne (m : JsMap EntityState) (ep : EntityPatch) (k : String)
    (h : ep.id ≠ k) : mapGet? (applyEntityPatch m ep) k = mapGet? m k := by
  unfold applyEntityPatch
  by_cases h0 : ep.id == ""
  · simp [h0]
  · simp only [h0, if_false]
    by_cases h1 : ep.deleted == some true
    · simp only [h1, if_true]
      by_cases h2 : mapHas m ep.id
      · simp [h2, mapGet?_delete_ne _ _ _ h]
      · simp [h2]
    · simp only [h1, if_false]
      cases hget : mapGet? m ep.id with
      | some existing => simp [hget, mapGet?_set_ne _ _ _ _ h]
      | none => simp [hget, mapGet?_set_ne _ _ _ _ h]

theorem applyQuestPatch_get?_ne (m : JsMap QuestState) (q : QuestPatch) (k : String)
    (h : q.id ≠ k) : mapGet? (applyQuestPatch m q) k = mapGet? m k := by
  unfold applyQuestPatch
  cases hget : mapGet? m q.id with
  | some old => simp [mapGet?_set_ne _ _ _ _ h]
  | none =>
    cases hl : q.label with
    | none => simp
    | some l =>
      cases hs : q.status with
      | none => simp
      | some st =>
        by_cases hl0 : l == ""
        · simp [hl0]
        · simp [hl0, mapGet?_set_ne _ _ _ _ h]

theorem applyThreadPatch_get?_ne (m : JsMap ThreadState) (t : ThreadPatch) (k : String)
    (h : t.id ≠ k) : mapGet? (applyThreadPatch m t) k = mapGet? m k := by
  unfold applyThreadPatch
  cases hget : mapGet? m t.id with
  | some old => simp [mapGet?_set_ne _ _ _ _ h]
  | none =>
    cases hd : t.description with
    | none => simp
    | some d =>
      by_cases hd0 : d == ""
      · simp [hd0]
      · simp [hd0, mapGet?_set_ne _ _ _ _ h]

theorem applyEntityPatch_create_eq (m : JsMap EntityState) (ep : EntityPatch)
    (h0 : ep.id ≠ "") (hd : ep.deleted ≠ some true) (hget : mapGet? m ep.id = none) :
    applyEntityPatch m ep = mapSet m ep.id (createEntity ep) := by
  unfold applyEntityPatch
  have h0b : (ep.id == "") = false := by simpa using h0
  have hdb : (ep.deleted == some true) = false := by simpa using hd
  simp [h0b, hdb, hget]

theorem applyEntityPatch_update_eq (m : JsMap EntityState) (ep : EntityPatch)
    (existing : EntityState)
    (h0 : ep.id ≠ "") (hd : ep.deleted ≠ some true) (hget : mapGet? m ep.id = some existing) :
    applyEntityPatch m ep = mapSet m ep.id (mergeEntity existing ep) := by
  unfold applyEntityPatch
  have h0b : (ep.id == "") = false := by simpa using h0
  have hdb : (ep.deleted == some true) = false := by simpa using hd
  simp [h0b, hdb, hget]

theorem applyEntityPatch_delete_eq (m : JsMap EntityState) (ep : EntityPatch)
    (h0 : ep.id ≠ "") (hd : ep.deleted = some true) :
    applyEntityPatch m ep = if mapHas m ep.id then mapDelete m ep.id else m := by
  unfold applyEntityPatch
  have h0b : (ep.id == "") = false := by simpa using h0
  simp [h0b, hd]

theorem entityFold_coherent (es : List EntityPatch) (m : JsMap EntityState)
    (hm : KeyCoherent EntityState.id m) :
    KeyCoherent EntityState.id (es.foldl applyEntityPatch m) := by
  induction es generalizing m with
  | nil => simpa using hm
  | cons hd tl ih =>
    refine ih _ ?_
    unfold applyEntityPatch
    by_cases h0 : hd.id == ""
    · simp only [h0, if_true]; exact hm
    · simp only [h0, if_false]
      by_cases h1 : hd.deleted == some true
      · simp only [h1, if_true]
        by_cases h2 : mapHas m hd.id
        · simp only [h2, if_true]; exact keyCoherent_delete hm
        · simp only [h2, if_false]; exact hm
      · simp only [h1, if_false]
        cases hget : mapGet? m hd.id with
        | some existing => simp only [hget]; exact keyCoherent_set hm rfl
        | none => simp only [hget]; exact keyCoherent_set hm rfl

/-! ## Claim C1 — creation of stub entities without a name

The spec says a patch entry with a new id and no name is silently
skipped; the CREATE branch (lines 190-207) instead deliberately creates
the entity with the fallback name "Unknown Entity" ("Allow creation even
if name is missing ... to prevent data loss"). -/

/-- A fully concrete world state used by concrete counterexamples and
witnesses below. -/
def wsBase : WorldState :=
  { scene := { location := ⟨none, "Nowhere", none⟩, time := "T0", weather := none, atmosphere := none }
    player := { name := "Hero", location := ⟨none, "Nowhere", none⟩, condition := "OK"
                activity := none, intent := none, inventory := [], capabilities := [], attributes := [] }
    entities := []
    quests := []
    threads := []
    facts := []
    hypotheses := []
    secrets := [] }

/-- The all-absent patch. -/
def emptyPatch : StatePatch :=
  ⟨none, none, none, none, none, none, none, none, none⟩

/-- A patch entry for entity id "e1" carrying nothing but the id. -/
def stubEntry : EntityPatch :=
  ⟨"e1", none, none, none, none, none, none, none⟩

/-- A patch whose entities list is exactly the stub entry. -/
def stubPatch : StatePatch :=
  { emptyPatch with entities := some [stubEntry] }

/-- C1, counterexample: on the empty base state, the stub entry for the
fresh id "e1" (no name, deleted not set) DOES create an entity — the
claimed silent skip does not happen. -/
theorem entity_stub_skip_cex :
    (applyStatePatch wsBase stubPatch).entities.map EntityState.id = ["e1"] := by
  rfl

/-- C1 (amended): a patch entry whose id matches no existing entity, with
`deleted` not set and no name supplied, creates the entity with the
fallback name "Unknown Entity" (provided the id is non-empty and no other
entry of the same patch carries that id); the rest of the merge still
succeeds (the merge is a total function). -/
theorem entity_stub_creates_with_fallback_name (s : WorldState) (p : StatePatch)
    (es1 es2 : List EntityPatch) (e : EntityPatch)
    (hp : p.entities = some (es1 ++ e :: es2))
    (hid : e.id ≠ "")
    (hname : e.name = none)
    (hdel : e.deleted ≠ some true)
    (hstate : ∀ ent ∈ s.entities, ent.id ≠ e.id)
    (hes1 : ∀ e2 ∈ es1, e2.id ≠ e.id)
    (hes2 : ∀ e2 ∈ es2, e2.id ≠ e.id) :
    ∃ ent ∈ (applyStatePatch s p).entities, ent.id = e.id ∧ ent.name = "Unknown Entity" := by
  rw [applyStatePatch_eq]
  simp only [hp]
  have hbase : mapGet? (mapFromList EntityState.id s.entities) e.id = none :=
    mapGet?_fromList_none _ _ _ hstate
  rw [List.foldl_append, List.foldl_cons]
  have h1 : mapGet? (es1.foldl applyEntityPatch (mapFromList EntityState.id s.entities)) e.id = none := by
    rw [foldl_mapGet?_eq applyEntityPatch EntityPatch.id e.id
      (fun m e2 h => applyEntityPatch_get?_ne m e2 e.id h) es1 hes1]
    exact hbase
  have hstep : mapGet? (applyEntityPatch
      (es1.foldl applyEntityPatch (mapFromList EntityState.id s.entities)) e) e.id
      = some (createEntity e) := by
    rw [applyEntityPatch_create_eq _ _ hid hdel h1]
    exact mapGet?_set_self _ _ _
  have hfinal : mapGet? ((es2.foldl applyEntityPatch (applyEntityPatch
      (es1.foldl applyEntityPatch (mapFromList EntityState.id s.entities)) e))) e.id
      = some (createEntity e) := by
    rw [foldl_mapGet?_eq applyEntityPatch EntityPatch.id e.id
      (fun m e2 h => applyEntityPatch_get?_ne m e2 e.id h) es2 hes2]
    exact hstep
  refine ⟨createEntity e, mem_values_of_mapGet? hfinal, rfl, ?_⟩
  simp [createEntity, jsOr, hname]

/-- C1 witness: the amended theorem applied to the concrete stub patch. -/
theorem entity_stub_creates_with_fallback_name_witness :
    ∃ ent ∈ (applyStatePatch wsBase stubPatch).entities,
      ent.id = "e1" ∧ ent.name = "Unknown Entity" := by
  have h := entity_stub_creates_with_fallback_name wsBase stubPatch [] [] stubEntry
    rfl (by decide) rfl (by decide)
    (by intro ent h; simp [wsBase] at h) (by intro e2 h; simp at h) (by intro e2 h; simp at h)
  exact h

/-! ## Claim C5 — entity hard deletion

A `deleted: true` entry removes the entity outright — but the entity
loop processes entries in order, so a LATER entry of the same patch with
the same id can re-create what the delete entry removed.  The claim as
stated quantifies over every patch containing a delete entry and is
therefore false; it holds whenever no later entry reuses the id. -/

/-- Patch entry that hard-deletes entity "e1" (with another field set,
as in the spec scenario). -/
def deleteEntry : EntityPatch :=
  ⟨"e1", none, some "anything", none, none, none, none, some true⟩

/-- Patch entry that re-creates entity "e1" with a name. -/
def recreateEntry : EntityPatch :=
  ⟨"e1", some "X", none, none, none, none, none, none⟩

/-- A patch that deletes "e1" and then re-creates it in the same entities list. -/
def deleteRecreatePatch : StatePatch :=
  { emptyPatch with entities := some [deleteEntry, recreateEntry] }

/-- C5, counterexample: the patch contains a `deleted: true` entry for
"e1", yet the resulting state DOES contain an "e1" entity, because a
later entry of the same patch re-created it. -/
theorem entity_delete_cex :
    (applyStatePatch wsBase deleteRecreatePatch).entities.map EntityState.id = ["e1"] := by
  rfl

/-- C5 (amended): a `deleted: true` entry removes the entity with that id
from the result regardless of the other fields of the same entry,
provided the id is non-empty and no LATER entry of the same entities
list carries that id; and if no entity with the id existed (and no
earlier entry created one), the delete entry has no effect on the result. -/
theorem entity_delete_removes (s : WorldState) (p : StatePatch)
    (es1 es2 : List EntityPatch) (e : EntityPatch)
    (hp : p.entities = some (es1 ++ e :: es2))
    (hid : e.id ≠ "")
    (hdel : e.deleted = some true)
    (hes2 : ∀ e2 ∈ es2, e2.id ≠ e.id) :
    (∀ ent ∈ (applyStatePatch s p).entities, ent.id ≠ e.id) ∧
    ((∀ ent ∈ s.entities, ent.id ≠ e.id) → (∀ e2 ∈ es1, e2.id ≠ e.id) →
      applyStatePatch s p = applyStatePatch s { p with entities := some (es1 ++ es2) }) := by
  constructor
  · rw [applyStatePatch_eq]
    simp only [hp]
    intro ent hent
    have hco : KeyCoherent EntityState.id
        ((es1 ++ e :: es2).foldl applyEntityPatch (mapFromList EntityState.id s.entities)) :=
      entityFold_coherent _ _ (keyCoherent_fromList _ _)
    have hnone : mapGet?
        ((es1 ++ e :: es2).foldl applyEntityPatch (mapFromList EntityState.id s.entities)) e.id
        = none := by
      rw [List.foldl_append, List.foldl_cons]
      rw [foldl_mapGet?_eq applyEntityPatch EntityPatch.id e.id
        (fun m e2 h => applyEntityPatch_get?_ne m e2 e.id h) es2 hes2]
      rw [applyEntityPatch_delete_eq _ _ hid hdel]
      by_cases hhas : mapHas (es1.foldl applyEntityPatch (mapFromList EntityState.id s.entities)) e.id
      · simp [hhas]
      · simp only [hhas, if_false, Bool.false_eq_true]
        exact (mapHas_eq_false_iff _ _).mp (by simpa using hhas)
    exact values_key_ne_of_get_none hco hnone ent hent
  · intro hstate hes1
    have hbase : mapGet? (mapFromList EntityState.id s.entities) e.id = none :=
      mapGet?_fromList_none _ _ _ hstate
    have h1 : mapGet? (es1.foldl applyEntityPatch (mapFromList EntityState.id s.entities)) e.id
        = none := by
      rw [foldl_mapGet?_eq applyEntityPatch EntityPatch.id e.id
        (fun m e2 h => applyEntityPatch_get?_ne m e2 e.id h) es1 hes1]
      exact hbase
    have hskip : applyEntityPatch (es1.foldl applyEntityPatch (mapFromList EntityState.id s.entities)) e
        = es1.foldl applyEntityPatch (mapFromList EntityState.id s.entities) := by
      rw [applyEntityPatch_delete_eq _ _ hid hdel]
      have : mapHas (es1.foldl applyEntityPatch (mapFromList EntityState.id s.entities)) e.id = false :=
        (mapHas_eq_false_iff _ _).mpr h1
      simp [this]
    rw [applyStatePatch_eq, applyStatePatch_eq]
    simp only [hp]
    rw [List.foldl_append, List.foldl_cons, hskip, ← List.foldl_append]

/-- A base state that already holds an "e1" entity. -/
def wsWithE1 : WorldState :=
  { wsBase with entities :=
      [⟨"e1", none, "Goblin", ⟨none, "Cave", none⟩, "Growling", "Hostile", none, "Hostile", []⟩] }

/-- A patch holding only the delete entry for "e1". -/
def deleteOnlyPatch : StatePatch :=
  { emptyPatch with entities := some [deleteEntry] }

/-- C5 witness: the amended theorem applied to a state holding "e1" and
the single-entry delete patch. -/
theorem entity_delete_removes_witness :
    (∀ ent ∈ (applyStatePatch wsWithE1 deleteOnlyPatch).entities, ent.id ≠ "e1") ∧
    ((∀ ent ∈ wsWithE1.entities, ent.id ≠ "e1") → (∀ e2 ∈ ([] : List EntityPatch), e2.id ≠ "e1") →
      applyStatePatch wsWithE1 deleteOnlyPatch
        = applyStatePatch wsWithE1 { deleteOnlyPatch with entities := some ([] ++ []) }) := by
  exact entity_delete_removes wsWithE1 deleteOnlyPatch [] [] deleteEntry
    rfl (by decide) rfl (by intro e2 h; simp at h)

/-! ## Claim C2 — facts/hypotheses/secrets add/remove order

The spec says removal happens first and additions are appended
afterwards (so a string in both lists survives).  The source blocks
(lines 247-284) do the opposite: additions not already present are
appended FIRST, then every string of the remove list is filtered out —
a string in both lists ends up absent. -/

/-- A patch adding and removing the same fact string "a". -/
def addRemoveSamePatch : StatePatch :=
  { emptyPatch with facts := some ⟨some ["a"], some ["a"]⟩ }

/-- C2, counterexample: "a" occurs in both the add and the remove list,
and is ABSENT from the result (the claim says it must be present). -/
theorem facts_order_cex :
    "a" ∉ (applyStatePatch wsBase addRemoveSamePatch).facts := by
  decide

/-- What the add/remove blocks actually guarantee: strings of the remove
list are gone; strings added and not removed are present; surviving
strings come from the old list or the add list; and a string already
present is never appended again (its multiplicity is unchanged unless it
is removed). -/
def addThenRemoveSpec (cur add rem res : List String) : Prop :=
  (∀ x ∈ rem, x ∉ res) ∧
  (∀ x, x ∈ add → x ∉ rem → x ∈ res) ∧
  (∀ x, x ∈ cur → x ∉ rem → x ∈ res) ∧
  (∀ x, x ∈ res → x ∈ cur ∨ x ∈ add) ∧
  (∀ x, x ∈ cur → res.count x = if x ∈ rem then 0 else cur.count x)

theorem addThenRemove_core (cur add rem : List String) :
    addThenRemoveSpec cur add rem
      ((cur ++ add.filter (fun it => !(cur.contains it))).filter (fun it => !(rem.contains it))) := by
  refine ⟨?_, ?_, ?_, ?_, ?_⟩
  · intro x hx hmem
    rcases List.mem_filter.mp hmem with ⟨-, hdec⟩
    simp at hdec
    exact hdec hx
  · intro x hadd hrem
    refine List.mem_filter.mpr ⟨?_, by simpa using hrem⟩
    by_cases hcur : x ∈ cur
    · exact List.mem_append_left _ hcur
    · exact List.mem_append_right _ (List.mem_filter.mpr ⟨hadd, by simpa using hcur⟩)
  · intro x hcur hrem
    exact List.mem_filter.mpr ⟨List.mem_append_left _ hcur, by simpa using hrem⟩
  · intro x hx
    rcases List.mem_append.mp (List.mem_filter.mp hx).1 with h | h
    · exact Or.inl h
    · exact Or.inr (List.mem_filter.mp h).1
  · intro x hcur
    by_cases hrem : x ∈ rem
    · simp only [hrem, if_true]
      refine List.count_eq_zero.mpr ?_
      intro hx
      rcases List.mem_filter.mp hx with ⟨-, hdec⟩
      simp at hdec
      exact hdec hrem
    · simp only [hrem, if_false]
      rw [List.count_filter (by simpa using hrem)]
      rw [List.count_append]
      have : (add.filter (fun it => !(cur.contains it))).count x = 0 := by
        refine List.count_eq_zero.mpr ?_
        intro hx
        rcases List.mem_filter.mp hx with ⟨-, hdec⟩
        simp at hdec
        exact hdec hcur
      omega

/-- The facts block equals the hypotheses/secrets block: the extra
non-empty-length guards change nothing. -/
theorem applyFactsPatch_eq_HS (cur : List String) (ar : AddRemove) :
    applyFactsPatch cur ar = applyHypSecretsPatch cur ar := by
  obtain ⟨a, r⟩ := ar
  unfold applyFactsPatch applyHypSecretsPatch
  cases a with
  | none =>
    cases r with
    | none => rfl
    | some rem => cases rem <;> simp
  | some add =>
    cases add with
    | nil =>
      cases r with
      | none => simp
      | some rem => cases rem <;> simp
    | cons a0 arest =>
      cases r with
      | none => simp
      | some rem => cases rem <;> simp

/-- C2 (amended): for each of the facts / hypotheses / secrets blocks,
applyStatePatch FIRST appends the add-list strings not already present,
THEN removes every string of the remove list; hence a string occurring
in both lists is absent from the result, and a string already present is
never duplicated. -/
theorem facts_add_then_remove (s : WorldState) (p : StatePatch) (add rem : List String)
    (hf : p.facts = some ⟨some add, some rem⟩)
    (hh : p.hypotheses = some ⟨some add, some rem⟩)
    (hs : p.secrets = some ⟨some add, some rem⟩) :
    addThenRemoveSpec s.facts add rem (applyStatePatch s p).facts ∧
    addThenRemoveSpec s.hypotheses add rem (applyStatePatch s p).hypotheses ∧
    addThenRemoveSpec s.secrets add rem (applyStatePatch s p).secrets := by
  rw [applyStatePatch_eq]
  simp only [hf, hh, hs, applyFactsPatch_eq_HS]
  exact ⟨addThenRemove_core _ _ _, addThenRemove_core _ _ _, addThenRemove_core _ _ _⟩

/-- A patch applying `add ["a","b"], remove ["b"]` to all three lists. -/
def addRemoveAllPatch : StatePatch :=
  { emptyPatch with
      facts := some ⟨some ["a", "b"], some ["b"]⟩
      hypotheses := some ⟨some ["a", "b"], some ["b"]⟩
      secrets := some ⟨some ["a", "b"], some ["b"]⟩ }

/-- C2 witness: the amended theorem applied to the concrete patch. -/
theorem facts_add_then_remove_witness :
    addThenRemoveSpec wsBase.facts ["a", "b"] ["b"] (applyStatePatch wsBase addRemoveAllPatch).facts ∧
    addThenRemoveSpec wsBase.hypotheses ["a", "b"] ["b"] (applyStatePatch wsBase addRemoveAllPatch).hypotheses ∧
    addThenRemoveSpec wsBase.secrets ["a", "b"] ["b"] (applyStatePatch wsBase addRemoveAllPatch).secrets := by
  exact facts_add_then_remove wsBase addRemoveAllPatch ["a", "b"] ["b"] rfl rfl rfl

/-! ## Claim C6 — quest/thread upsert by id -/

theorem applyQuestPatch_update_eq (m : JsMap QuestState) (q : QuestPatch) (old : QuestState)
    (hget : mapGet? m q.id = some old) :
    applyQuestPatch m q = mapSet m q.id (mergeQuest old q) := by
  unfold applyQuestPatch
  simp [hget]

theorem applyQuestPatch_insert_eq (m : JsMap QuestState) (q : QuestPatch) (l : String)
    (st : QuestStatus) (hget : mapGet? m q.id = none) (hl : q.label = some l) (hl0 : l ≠ "")
    (hst : q.status = some st) :
    applyQuestPatch m q = mapSet m q.id
      { id := q.id, label := l, description := q.description, status := st
        steps := q.steps.getD [], attributes := q.attributes.getD [] } := by
  unfold applyQuestPatch
  have hl0b : (l == "") = false := by simpa using hl0
  simp [hget, hl, hst, hl0b]

theorem applyQuestPatch_skip_eq (m : JsMap QuestState) (q : QuestPatch)
    (hget : mapGet? m q.id = none)
    (hbad : q.label = none ∨ q.label = some "" ∨ q.status = none) :
    applyQuestPatch m q = m := by
  unfold applyQuestPatch
  rcases hbad with h | h | h
  · simp [hget, h]
  · cases hst : q.status with
    | none => simp [hget, h, hst]
    | some st => simp [hget, h, hst]
  · cases hl : q.label with
    | none => simp [hget, h, hl]
    | some l => simp [hget, h, hl]

theorem applyThreadPatch_update_eq (m : JsMap ThreadState) (t : ThreadPatch) (old : ThreadState)
    (hget : mapGet? m t.id = some old) :
    applyThreadPatch m t = mapSet m t.id (mergeThread old t) := by
  unfold applyThreadPatch
  simp [hget]

theorem applyThreadPatch_insert_eq (m : JsMap ThreadState) (t : ThreadPatch) (d : String)
    (hget : mapGet? m t.id = none) (hd : t.description = some d) (hd0 : d ≠ "") :
    applyThreadPatch m t = mapSet m t.id
      { id := t.id, description := d, status := t.status.getD ThreadStatus.UNRESOLVED } := by
  unfold applyThreadPatch
  have hd0b : (d == "") = false := by simpa using hd0
  simp [hget, hd, hd0b]

theorem applyThreadPatch_skip_eq (m : JsMap ThreadState) (t : ThreadPatch)
    (hget : mapGet? m t.id = none)
    (hbad : t.description = none ∨ t.description = some "") :
    applyThreadPatch m t = m := by
  unfold applyThreadPatch
  rcases hbad with h | h
  · simp [hget, h]
  · simp [hget, h]

/-- C6: quests and threads are upserted by id.  For an id already stored,
every supplied field of the patch entry overwrites the stored field and a
supplied quest `steps` list replaces the stored list wholesale (the old
list is kept only when the entry supplies no steps); a patch entry with a
new id is inserted only when minimally valid — quests need a (non-empty)
label plus a status, threads a (non-empty) description — and is otherwise
skipped with the merge still succeeding, as if the entry were absent. -/
theorem quests_threads_upsert (s : WorldState) (p : StatePatch)
    (qs1 qs2 : List QuestPatch) (q : QuestPatch)
    (ts1 ts2 : List ThreadPatch) (t : ThreadPatch)
    (hpq : p.quests = some (qs1 ++ q :: qs2))
    (hpt : p.threads = some (ts1 ++ t :: ts2))
    (hqs1 : ∀ x ∈ qs1, x.id ≠ q.id) (hqs2 : ∀ x ∈ qs2, x.id ≠ q.id)
    (hts1 : ∀ x ∈ ts1, x.id ≠ t.id) (hts2 : ∀ x ∈ ts2, x.id ≠ t.id) :
    (∀ old, mapGet? (mapFromList QuestState.id s.quests) q.id = some old →
      ∃ qq ∈ (applyStatePatch s p).quests, qq.id = q.id ∧
        (∀ l, q.label = some l → qq.label = l) ∧ (q.label = none → qq.label = old.label) ∧
        (∀ dd, q.description = some dd → qq.description = some dd) ∧
        (q.description = none → qq.description = old.description) ∧
        (∀ st, q.status = some st → qq.status = st) ∧ (q.status = none → qq.status = old.status) ∧
        (∀ sl, q.steps = some sl → qq.steps = sl) ∧ (q.steps = none → qq.steps = old.steps)) ∧
    (∀ l st, q.label = some l → l ≠ "" → q.status = some st →
      mapGet? (mapFromList QuestState.id s.quests) q.id = none →
      ∃ qq ∈ (applyStatePatch s p).quests, qq.id = q.id ∧ qq.label = l ∧ qq.status = st ∧
        qq.description = q.description ∧
        (∀ sl, q.steps = some sl → qq.steps = sl)) ∧
    (mapGet? (mapFromList QuestState.id s.quests) q.id = none →
      (q.label = none ∨ q.label = some "" ∨ q.status = none) →
      applyStatePatch s p = applyStatePatch s { p with quests := some (qs1 ++ qs2) }) ∧
    (∀ old, mapGet? (mapFromList ThreadState.id s.threads) t.id = some old →
      ∃ tt ∈ (applyStatePatch s p).threads, tt.id = t.id ∧
        (∀ d, t.description = some d → tt.description = d) ∧
        (t.description = none → tt.description = old.description) ∧
        (∀ st, t.status = some st → tt.status = st) ∧
        (t.status = none → tt.status = old.status)) ∧
    (∀ d, t.description = some d → d ≠ "" →
      mapGet? (mapFromList ThreadState.id s.threads) t.id = none →
      ∃ tt ∈ (applyStatePatch s p).threads, tt.id = t.id ∧ tt.description = d ∧
        (∀ st, t.status = some st → tt.status = st)) ∧
    (mapGet? (mapFromList ThreadState.id s.threads) t.id = none →
      (t.description = none ∨ t.description = some "") →
      applyStatePatch s p = applyStatePatch s { p with threads := some (ts1 ++ ts2) }) := by
  have hqframe1 : ∀ (m : JsMap QuestState),
      mapGet? (qs1.foldl applyQuestPatch m) q.id = mapGet? m q.id := fun m =>
    foldl_mapGet?_eq applyQuestPatch QuestPatch.id q.id
      (fun m2 x h => applyQuestPatch_get?_ne m2 x q.id h) qs1 hqs1 m
  have hqframe2 : ∀ (m : JsMap QuestState),
      mapGet? (qs2.foldl applyQuestPatch m) q.id = mapGet? m q.id := fun m =>
    foldl_mapGet?_eq applyQuestPatch QuestPatch.id q.id
      (fun m2 x h => applyQuestPatch_get?_ne m2 x q.id h) qs2 hqs2 m
  have htframe1 : ∀ (m : JsMap ThreadState),
      mapGet? (ts1.foldl applyThreadPatch m) t.id = mapGet? m t.id := fun m =>
    foldl_mapGet?_eq applyThreadPatch ThreadPatch.id t.id
      (fun m2 x h => applyThreadPatch_get?_ne m2 x t.id h) ts1 hts1 m
  have htframe2 : ∀ (m : JsMap ThreadState),
      mapGet? (ts2.foldl applyThreadPatch m) t.id = mapGet? m t.id := fun m =>
    foldl_mapGet?_eq applyThreadPatch ThreadPatch.id t.id
      (fun m2 x h => applyThreadPatch_get?_ne m2 x t.id h) ts2 hts2 m
  refine ⟨?_, ?_, ?_, ?_, ?_, ?_⟩
  · -- quest update
    intro old hold
    rw [applyStatePatch_eq]
    simp only [hpq]
    rw [List.foldl_append, List.foldl_cons]
    have hstep : applyQuestPatch (qs1.foldl applyQuestPatch (mapFromList QuestState.id s.quests)) q
        = mapSet _ q.id (mergeQuest old q) :=
      applyQuestPatch_update_eq _ _ _ (by rw [hqframe1]; exact hold)
    have hgetfin : mapGet? (qs2.foldl applyQuestPatch
        (applyQuestPatch (qs1.foldl applyQuestPatch (mapFromList QuestState.id s.quests)) q)) q.id
        = some (mergeQuest old q) := by
      rw [hqframe2, hstep]
      exact mapGet?_set_self _ _ _
    refine ⟨mergeQuest old q, mem_values_of_mapGet? hgetfin, rfl, ?_, ?_, ?_, ?_, ?_, ?_, ?_, ?_⟩
    · intro l hl; simp [mergeQuest, hl]
    · intro hl; simp [mergeQuest, hl]
    · intro dd hdd; simp [mergeQuest, hdd]
    · intro hdd; simp [mergeQuest, hdd]
    · intro st hst; simp [mergeQuest, hst]
    · intro hst; simp [mergeQuest, hst]
    · intro sl hsl; simp [mergeQuest, hsl]
    · intro hsl; simp [mergeQuest, hsl]
  · -- quest insert
    intro l st hl hl0 hst hnone
    rw [applyStatePatch_eq]
    simp only [hpq]
    rw [List.foldl_append, List.foldl_cons]
    have hstep : applyQuestPatch (qs1.foldl applyQuestPatch (mapFromList QuestState.id s.quests)) q
        = mapSet _ q.id { id := q.id, label := l, description := q.description, status := st
                          steps := q.steps.getD [], attributes := q.attributes.getD [] } :=
      applyQuestPatch_insert_eq _ _ _ _ (by rw [hqframe1]; exact hnone) hl hl0 hst
    have hgetfin : mapGet? (qs2.foldl applyQuestPatch
        (applyQuestPatch (qs1.foldl applyQuestPatch (mapFromList QuestState.id s.quests)) q)) q.id
        = some { id := q.id, label := l, description := q.description, status := st
                 steps := q.steps.getD [], attributes := q.attributes.getD [] } := by
      rw [hqframe2, hstep]
      exact mapGet?_set_self _ _ _
    refine ⟨_, mem_values_of_mapGet? hgetfin, rfl, rfl, rfl, rfl, ?_⟩
    intro sl hsl; simp [hsl]
  · -- quest skip
    intro hnone hbad
    have hstep : applyQuestPatch (qs1.foldl applyQuestPatch (mapFromList QuestState.id s.quests)) q
        = qs1.foldl applyQuestPatch (mapFromList QuestState.id s.quests) :=
      applyQuestPatch_skip_eq _ _ (by rw [hqframe1]; exact hnone) hbad
    rw [applyStatePatch_eq, applyStatePatch_eq]
    simp only [hpq]
    rw [List.foldl_append, List.foldl_cons, hstep, ← List.foldl_append]
  · -- thread update
    intro old hold
    rw [applyStatePatch_eq]
    simp only [hpt]
    rw [List.foldl_append, List.foldl_cons]
    have hstep : applyThreadPatch (ts1.foldl applyThreadPatch (mapFromList ThreadState.id s.threads)) t
        = mapSet _ t.id (mergeThread old t) :=
      applyThreadPatch_update_eq _ _ _ (by rw [htframe1]; exact hold)
    have hgetfin : mapGet? (ts2.foldl applyThreadPatch
        (applyThreadPatch (ts1.foldl applyThreadPatch (mapFromList ThreadState.id s.threads)) t)) t.id
        = some (mergeThread old t) := by
      rw [htframe2, hstep]
      exact mapGet?_set_self _ _ _
    refine ⟨mergeThread old t, mem_values_of_mapGet? hgetfin, rfl, ?_, ?_, ?_, ?_⟩
    · intro d hd; simp [mergeThread, hd]
    · intro hd; simp [mergeThread, hd]
    · intro st hst; simp [mergeThread, hst]
    · intro hst; simp [mergeThread, hst]
  · -- thread insert
    intro d hd hd0 hnone
    rw [applyStatePatch_eq]
    simp only [hpt]
    rw [List.foldl_append, List.foldl_cons]
    have hstep : applyThreadPatch (ts1.foldl applyThreadPatch (mapFromList ThreadState.id s.threads)) t
        = mapSet _ t.id { id := t.id, description := d
                          status := t.status.getD ThreadStatus.UNRESOLVED } :=
      applyThreadPatch_insert_eq _ _ _ (by rw [htframe1]; exact hnone) hd hd0
    have hgetfin : mapGet? (ts2.foldl applyThreadPatch
        (applyThreadPatch (ts1.foldl applyThreadPatch (mapFromList ThreadState.id s.threads)) t)) t.id
        = some { id := t.id, description := d
                 status := t.status.getD ThreadStatus.UNRESOLVED } := by
      rw [htframe2, hstep]
      exact mapGet?_set_self _ _ _
    refine ⟨_, mem_values_of_mapGet? hgetfin, rfl, rfl, ?_⟩
    intro st hst; simp [hst]
  · -- thread skip
    intro hnone hbad
    have hstep : applyThreadPatch (ts1.foldl applyThreadPatch (mapFromList ThreadState.id s.threads)) t
        = ts1.foldl applyThreadPatch (mapFromList ThreadState.id s.threads) :=
      applyThreadPatch_skip_eq _ _ (by rw [htframe1]; exact hnone) hbad
    rw [applyStatePatch_eq, applyStatePatch_eq]
    simp only [hpt]
    rw [List.foldl_append, List.foldl_cons, hstep, ← List.foldl_append]

/-- The spec-scenario quest patch entry. -/
def questEntryW : QuestPatch :=
  ⟨"q1", some "Find the Sword", none, some QuestStatus.ACTIVE,
    some [⟨"Enter cave", false⟩], none⟩

/-- The spec-scenario thread patch entry. -/
def threadEntryW : ThreadPatch :=
  ⟨"t1", some "Mystery of the Red Box", some ThreadStatus.UNRESOLVED⟩

/-- The spec-scenario upsert patch: one new quest and one new thread. -/
def questThreadPatch : StatePatch :=
  { emptyPatch with
      quests := some [questEntryW]
      threads := some [threadEntryW] }

/-- C6 witness: the theorem applied to the concrete quest/thread patch on
the empty base state. -/
theorem quests_threads_upsert_witness :
    (∀ l st, questEntryW.label = some l → l ≠ "" → questEntryW.status = some st →
      mapGet? (mapFromList QuestState.id wsBase.quests) "q1" = none →
      ∃ qq ∈ (applyStatePatch wsBase questThreadPatch).quests,
        qq.id = "q1" ∧ qq.label = l ∧ qq.status = st ∧
        qq.description = questEntryW.description ∧
        (∀ sl, questEntryW.steps = some sl → qq.steps = sl)) ∧
    (∀ d, threadEntryW.description = some d → d ≠ "" →
      mapGet? (mapFromList ThreadState.id wsBase.threads) "t1" = none →
      ∃ tt ∈ (applyStatePatch wsBase questThreadPatch).threads, tt.id = "t1" ∧ tt.description = d ∧
        (∀ st, threadEntryW.status = some st → tt.status = st)) := by
  have h := quests_threads_upsert wsBase questThreadPatch [] [] questEntryW [] [] threadEntryW
    rfl rfl (by intro x hx; simp at hx) (by intro x hx; simp at hx)
    (by intro x hx; simp at hx) (by intro x hx; simp at hx)
  exact ⟨h.2.1, h.2.2.2.2.1⟩

/-! ## Claim C9 — omitted patch fields leave state fields untouched -/

/-- C9: each top-level field of the state (scene, player, entities,
quests, threads, facts, hypotheses, secrets) on which the patch is
entirely absent is returned unchanged by applyStatePatch. -/
theorem patch_frame (s : WorldState) (p : StatePatch) :
    (p.scene = none → (applyStatePatch s p).scene = s.scene) ∧
    (p.player = none → (applyStatePatch s p).player = s.player) ∧
    (p.entities = none → (applyStatePatch s p).entities = s.entities) ∧
    (p.quests = none → (applyStatePatch s p).quests = s.quests) ∧
    (p.threads = none → (applyStatePatch s p).threads = s.threads) ∧
    (p.facts = none → (applyStatePatch s p).facts = s.facts) ∧
    (p.hypotheses = none → (applyStatePatch s p).hypotheses = s.hypotheses) ∧
    (p.secrets = none → (applyStatePatch s p).secrets = s.secrets) := by
  rw [applyStatePatch_eq]
  refine ⟨?_, ?_, ?_, ?_, ?_, ?_, ?_, ?_⟩ <;> intro h <;> simp [h]

/-- C9 witness: the empty patch leaves every field of the base state alone. -/
theorem patch_frame_witness :
    (emptyPatch.scene = none → (applyStatePatch wsBase emptyPatch).scene = wsBase.scene) ∧
    (emptyPatch.player = none → (applyStatePatch wsBase emptyPatch).player = wsBase.player) ∧
    (emptyPatch.entities = none → (applyStatePatch wsBase emptyPatch).entities = wsBase.entities) ∧
    (emptyPatch.quests = none → (applyStatePatch wsBase emptyPatch).quests = wsBase.quests) ∧
    (emptyPatch.threads = none → (applyStatePatch wsBase emptyPatch).threads = wsBase.threads) ∧
    (emptyPatch.facts = none → (applyStatePatch wsBase emptyPatch).facts = wsBase.facts) ∧
    (emptyPatch.hypotheses = none → (applyStatePatch wsBase emptyPatch).hypotheses = wsBase.hypotheses) ∧
    (emptyPatch.secrets = none → (applyStatePatch wsBase emptyPatch).secrets = wsBase.secrets) :=
  patch_frame wsBase emptyPatch

/-! ## Claim C8 — disjoint patches commute, same-field updates do not -/

theorem mapGet?_set_isSome {α : Type u} (m : JsMap α) (k k2 : String) (v : α)
    (h : (mapGet? m k).isSome) : (mapGet? (mapSet m k2 v) k).isSome := by
  by_cases hk : k2 = k
  · subst hk
    simp
  · rw [mapGet?_set_ne _ _ _ _ hk]
    exact h

theorem mapGet?_fromList_isSome_of_mem {α : Type u} (key : α → String) (l : List α) (x : α)
    (hx : x ∈ l) : (mapGet? (mapFromList key l) (key x)).isSome := by
  have main : ∀ (l : List α) (m : JsMap α),
      (mapGet? m (key x)).isSome ∨ x ∈ l →
      (mapGet? (l.foldl (fun m y => mapSet m (key y) y) m) (key x)).isSome := by
    intro l
    induction l with
    | nil =>
      intro m hm
      rcases hm with hm | hm
      · simpa using hm
      · simp at hm
    | cons hd tl ih =>
      intro m hm
      rcases hm with hm | hm
      · exact ih _ (Or.inl (mapGet?_set_isSome _ _ _ _ hm))
      · rcases List.mem_cons.mp hm with hm | hm
        · subst hm
          exact ih _ (Or.inl (by simp))
        · exact ih _ (Or.inr hm)
  exact main l [] (Or.inr hx)

/-- An upsert entry (non-empty id, not deleted) always leaves a value with
its own id in the entity map. -/
theorem applyEntityPatch_upsert_get_self (m : JsMap EntityState) (ep : EntityPatch)
    (h0 : ep.id ≠ "") (hd : ep.deleted ≠ some true) :
    ∃ v, mapGet? (applyEntityPatch m ep) ep.id = some v ∧ v.id = ep.id := by
  cases hget : mapGet? m ep.id with
  | some existing =>
    rw [applyEntityPatch_update_eq _ _ _ h0 hd hget]
    exact ⟨mergeEntity existing ep, mapGet?_set_self _ _ _, rfl⟩
  | none =>
    rw [applyEntityPatch_create_eq _ _ h0 hd hget]
    exact ⟨createEntity ep, mapGet?_set_self _ _ _, rfl⟩

/-- A single-entry entity patch setting only `condition`. -/
def condPatch (id c : String) : StatePatch :=
  { emptyPatch with entities := some [⟨id, none, some c, none, none, none, none, none⟩] }

/-- A patch carrying only a scene override. -/
def scenePatchOnly (sc : ScenePatch) : StatePatch :=
  { emptyPatch with scene := some sc }

/-- A patch carrying only a facts diff. -/
def factsPatchOnly (f : AddRemove) : StatePatch :=
  { emptyPatch with facts := some f }

/-- The combination of the two. -/
def sceneFactsPatch (sc : ScenePatch) (f : AddRemove) : StatePatch :=
  { emptyPatch with scene := some sc, facts := some f }

/-- C8: a scene-only patch and a facts-only patch are order-independent —
applying the combined patch equals applying them sequentially in either
order — whereas two patches setting the same entity's `condition` are
not: after sequential application in either order, the entity holds the
condition written by the patch applied last. -/
theorem disjoint_patch_commutation (s : WorldState) (sc : ScenePatch) (f : AddRemove)
    (id ca cb : String) :
    (applyStatePatch s (sceneFactsPatch sc f)
      = applyStatePatch (applyStatePatch s (scenePatchOnly sc)) (factsPatchOnly f)) ∧
    (applyStatePatch s (sceneFactsPatch sc f)
      = applyStatePatch (applyStatePatch s (factsPatchOnly f)) (scenePatchOnly sc)) ∧
    (id ≠ "" →
      ∃ ent ∈ (applyStatePatch (applyStatePatch s (condPatch id ca)) (condPatch id cb)).entities,
        ent.id = id ∧ ent.condition = cb) ∧
    (id ≠ "" →
      ∃ ent ∈ (applyStatePatch (applyStatePatch s (condPatch id cb)) (condPatch id ca)).entities,
        ent.id = id ∧ ent.condition = ca) := by
  have hlast : ∀ c1 c2 : String, id ≠ "" →
      ∃ ent ∈ (applyStatePatch (applyStatePatch s (condPatch id c1)) (condPatch id c2)).entities,
        ent.id = id ∧ ent.condition = c2 := by
    intro c1 c2 hid
    set e1 : EntityPatch := ⟨id, none, some c1, none, none, none, none, none⟩ with he1
    set e2 : EntityPatch := ⟨id, none, some c2, none, none, none, none, none⟩ with he2
    have hents1 : (applyStatePatch s (condPatch id c1)).entities
        = mapValues (applyEntityPatch (mapFromList EntityState.id s.entities) e1) := by
      rw [applyStatePatch_eq]
      rfl
    obtain ⟨v1, hv1get, hv1id⟩ :=
      applyEntityPatch_upsert_get_self (mapFromList EntityState.id s.entities) e1 hid (by simp [he1])
    have hv1mem : v1 ∈ (applyStatePatch s (condPatch id c1)).entities := by
      rw [hents1]
      exact mem_values_of_mapGet? hv1get
    have hsome : (mapGet? (mapFromList EntityState.id
        (applyStatePatch s (condPatch id c1)).entities) id).isSome := by
      have := mapGet?_fromList_isSome_of_mem EntityState.id
        (applyStatePatch s (condPatch id c1)).entities v1 hv1mem
      rwa [hv1id] at this
    obtain ⟨ex2, hex2⟩ := Option.isSome_iff_exists.mp hsome
    have hents2 : (applyStatePatch (applyStatePatch s (condPatch id c1)) (condPatch id c2)).entities
        = mapValues (applyEntityPatch (mapFromList EntityState.id
            (applyStatePatch s (condPatch id c1)).entities) e2) := by
      rw [applyStatePatch_eq]
      rfl
    have hupd : applyEntityPatch (mapFromList EntityState.id
        (applyStatePatch s (condPatch id c1)).entities) e2
        = mapSet _ id (mergeEntity ex2 e2) :=
      applyEntityPatch_update_eq _ _ _ hid (by simp [he2]) hex2
    refine ⟨mergeEntity ex2 e2, ?_, rfl, rfl⟩
    rw [hents2, hupd]
    exact mem_values_of_mapGet? (mapGet?_set_self _ _ _)
  refine ⟨?_, ?_, hlast ca cb, hlast cb ca⟩
  · rw [applyStatePatch_eq, applyStatePatch_eq, applyStatePatch_eq]
    rfl
  · rw [applyStatePatch_eq, applyStatePatch_eq, applyStatePatch_eq]
    rfl

/-- C8 witness: the commutation theorem at a concrete scene patch, facts
diff and entity condition pair. -/
theorem disjoint_patch_commutation_witness :
    (applyStatePatch wsBase (sceneFactsPatch ⟨"Night", ⟨"Cave", none⟩, none⟩ ⟨some ["f1"], none⟩)
      = applyStatePatch (applyStatePatch wsBase (scenePatchOnly ⟨"Night", ⟨"Cave", none⟩, none⟩))
          (factsPatchOnly ⟨some ["f1"], none⟩)) ∧
    (applyStatePatch wsBase (sceneFactsPatch ⟨"Night", ⟨"Cave", none⟩, none⟩ ⟨some ["f1"], none⟩)
      = applyStatePatch (applyStatePatch wsBase (factsPatchOnly ⟨some ["f1"], none⟩))
          (scenePatchOnly ⟨"Night", ⟨"Cave", none⟩, none⟩)) ∧
    ("e1" ≠ "" →
      ∃ ent ∈ (applyStatePatch (applyStatePatch wsBase (condPatch "e1" "Hurt"))
          (condPatch "e1" "Well")).entities, ent.id = "e1" ∧ ent.condition = "Well") ∧
    ("e1" ≠ "" →
      ∃ ent ∈ (applyStatePatch (applyStatePatch wsBase (condPatch "e1" "Well"))
          (condPatch "e1" "Hurt")).entities, ent.id = "e1" ∧ ent.condition = "Hurt") :=
  disjoint_patch_commutation wsBase ⟨"Night", ⟨"Cave", none⟩, none⟩ ⟨some ["f1"], none⟩
    "e1" "Hurt" "Well"

/-! ## Conversation tree data model (src/lib/llm/chatTree.ts)

`makeId()` (a fresh UUID) and `nowIso()` are nondeterministic inputs of
the source operations; the embedding passes them as explicit `newId` /
`now` arguments, with UUID freshness (`newId` unused in the tree) as a
hypothesis where a claim needs it. -/

inductive Role : Type where
  | user | assistant | system
  deriving DecidableEq

/-- How a node came to exist (field `relation` of a node). -/
inductive NodeRelation : Type where
  | reply | regenerate | rewrite | initiate
  deriving DecidableEq

/-- A content part. -/
inductive Part : Type where
  | thought (thought : String)
  | text (text : String)
  | image_ref (id : String) (caption : Option String)
  deriving DecidableEq

structure ChatNode : Type where
  id : String
  relation : NodeRelation
  role : Role
  parts : List Part
  parentId : Option String
  createdAt : String
  state : Option WorldState
  deriving DecidableEq

structure ChatTree : Type where
  rootId : String
  headId : String
  nodes : JsMap ChatNode
  children : JsMap (List String)
  activeChildByParent : JsMap String
  deriving DecidableEq

/-- Outcome of a tree operation, distinguishing the three ways the JS
code can fail to return a tree: reading a property of `undefined`
(TypeError — the unchecked `tree.nodes[id].parentId` access), an
explicit `throw new Error(...)`, and the unbounded `recalculateHeadId`
loop never exiting. -/
inductive TreeResult : Type where
  | crash
  | thrown (msg : String)
  | ok (t : ChatTree)
  | diverge
  deriving DecidableEq

/-- `pushUnique` (chatTree.ts lines 54-56). -/
def pushUnique (arr : List String) (item : String) : List String :=
  if item ∈ arr then arr else arr ++ [item]

/-- `getChildren` (lines 58-60): `tree.children[parentId] ?? []`. -/
def getChildren (tree : ChatTree) (parentId : String) : List String :=
  (mapGet? tree.children parentId).getD []

/-- `setNewChild` (lines 62-72). -/
def setNewChild (tree : ChatTree) (parentId : String) (childNode : ChatNode) : ChatTree :=
  { tree with
      children := mapSet tree.children parentId
        (pushUnique (getChildren tree parentId) childNode.id) }

/-- `createEmptyTree` (lines 82-101). -/
def createEmptyTree (startingSystemPrompt : String) (initialState : Option WorldState)
    (rootId now : String) : ChatTree :=
  let root : ChatNode :=
    ⟨rootId, NodeRelation.initiate, Role.system, [Part.text startingSystemPrompt], none, now, initialState⟩
  { rootId := rootId
    headId := rootId
    nodes := [(rootId, root)]
    children := []
    activeChildByParent := [] }

/-- `addChildAndAutoActivate` (lines 110-151): append the child id to the
parent's list, auto-activate it, store the node, move the head.  Throws
when the parent id is unknown. -/
def addChildAndAutoActivate (tree : ChatTree) (parentId : String) (relation : NodeRelation)
    (role : Role) (parts : List Part) (state : Option WorldState) (newId now : String) :
    Except String ChatTree :=
  if mapHas tree.nodes parentId = false then
    Except.error "parentId does not exist in nodes."
  else
    let childNode : ChatNode := ⟨newId, relation, role, parts, some parentId, now, state⟩
    let t1 := setNewChild tree parentId childNode
    Except.ok { t1 with
      activeChildByParent := mapSet t1.activeChildByParent parentId newId
      nodes := mapSet t1.nodes newId childNode
      headId := newId }

/-- `appendUser` (lines 153-163). -/
def appendUser (tree : ChatTree) (text : String) (newId now : String) : Except String ChatTree :=
  addChildAndAutoActivate tree tree.headId NodeRelation.reply Role.user [Part.text text] none newId now

/-- `replyAssistant` (lines 165-178). -/
def replyAssistant (tree : ChatTree) (parentUserId : String) (parts : List Part)
    (state : Option WorldState) (newId now : String) : Except String ChatTree :=
  addChildAndAutoActivate tree parentUserId NodeRelation.reply Role.assistant parts state newId now

def liftExcept : Except String ChatTree → TreeResult
  | Except.error e => TreeResult.thrown e
  | Except.ok t => TreeResult.ok t

/-- `regenerateAssistant` (lines 180-198): the guard reads
`tree.nodes[target].parentId` without checking that the node exists —
a missing target is a TypeError (`crash`), a root target is a thrown
error. -/
def regenerateAssistant (tree : ChatTree) (regenerateTargetNodeId : String)
    (parts : List Part) (state : Option WorldState) (newId now : String) : TreeResult :=
  match mapGet? tree.nodes regenerateTargetNodeId with
  | none => TreeResult.crash
  | some node =>
    match node.parentId with
    | none => TreeResult.thrown "regenerateTargetNodeId does not have a parentId."
    | some pid =>
      liftExcept (addChildAndAutoActivate tree pid NodeRelation.regenerate Role.assistant
        parts state newId now)

/-- `rewriteNode` (lines 200-216): same guard shape; the new sibling keeps
the target's role and carries no state. -/
def rewriteNode (tree : ChatTree) (rewriteTargetNodeId : String)
    (parts : List Part) (newId now : String) : TreeResult :=
  match mapGet? tree.nodes rewriteTargetNodeId with
  | none => TreeResult.crash
  | some node =>
    match node.parentId with
    | none => TreeResult.thrown "rewriteTargetNodeId does not have a parentId."
    | some pid =>
      liftExcept (addChildAndAutoActivate tree pid NodeRelation.rewrite node.role
        parts none newId now)

/-- `getAlternatives` (lines 218-221): `ids.map(id => nodes[id]).filter(Boolean)`. -/
def getAlternatives (tree : ChatTree) (parentId : String) : List ChatNode :=
  (getChildren tree parentId).filterMap (fun id => mapGet? tree.nodes id)

/-- The loop body of `recalculateHeadId` (lines 329-339) with explicit
fuel: `some h` when the walk reaches a node with no active child within
`fuel` steps, `none` when the fuel runs out first. -/
def followActive? (tree : ChatTree) : Nat → String → Option String
  | 0, _ => none
  | fuel + 1, cur =>
    match mapGet? tree.activeChildByParent cur with
    | none => some cur
    | some nxt => followActive? tree fuel nxt

/-- `recalculateHeadId` (lines 329-339).  The source loop carries no
iteration bound; the embedding runs it with fuel `|activeChildByParent| + 1`.
If that fuel runs out, the walk has stepped through more ids than the
active map has entries, so it revisited a key and the deterministic
source loop cycles forever — `none` models exactly that divergence. -/
def recalculateHeadId (tree : ChatTree) : Option ChatTree :=
  (followActive? tree (tree.activeChildByParent.length + 1) tree.rootId).map
    (fun h => { tree with headId := h })

/-- `setActive` (lines 223-256). -/
def setActive (tree : ChatTree) (targetNodeId : String) (moveHead : Bool) : TreeResult :=
  match mapGet? tree.nodes targetNodeId with
  | none => TreeResult.crash
  | some node =>
    match node.parentId with
    | none => TreeResult.thrown "targetNodeId does not have a parentId."
    | some parentId =>
      let kids := getChildren tree parentId
      if targetNodeId ∈ kids then
        let next : ChatTree :=
          { tree with activeChildByParent := mapSet tree.activeChildByParent parentId targetNodeId }
        if moveHead then TreeResult.ok { next with headId := targetNodeId }
        else
          match recalculateHeadId next with
          | some t2 => TreeResult.ok t2
          | none => TreeResult.diverge
      else TreeResult.thrown "targetNodeId is not in children[parentId]."

/-- `setHead` (lines 258-263). -/
def setHead (tree : ChatTree) (headId : String) : ChatTree :=
  { tree with headId := headId }

/-- The loop of `getActivePathNodes` (lines 301-321), structurally bounded
by the `limit` argument. -/
def goActivePath (tree : ChatTree) : Nat → String → List ChatNode
  | 0, _ => []
  | limit + 1, cur =>
    match mapGet? tree.nodes cur with
    | none => []
    | some node =>
      node :: (match mapGet? tree.activeChildByParent cur with
        | none => []
        | some nxt => goActivePath tree limit nxt)

/-- `getActivePathNodes` (lines 301-321). -/
def getActivePathNodes (tree : ChatTree) (limit : Nat) : List ChatNode :=
  goActivePath tree limit tree.rootId

/-! ## Claim C3 — regeneration is a non-destructive sibling fork -/

/-- C3: on a target with parent `P`, `regenerateAssistant` adds exactly
one new node (role assistant, relation regenerate, parent `P`), makes it
`P`'s active child and the new head, leaves every previously existing
node retrievable unchanged, and `getAlternatives P` afterwards lists the
old siblings (the target among them) before the new node, in creation
order; on the parentless root it fails with the documented error. -/
theorem regenerate_nondestructive (t : ChatTree) (targetId : String) (parts : List Part)
    (st : Option WorldState) (newId now : String) :
    (∀ nodeA P, mapGet? t.nodes targetId = some nodeA → nodeA.parentId = some P →
      mapHas t.nodes P = true → mapGet? t.nodes newId = none → newId ∉ getChildren t P →
      targetId ∈ getChildren t P →
      ∃ t', regenerateAssistant t targetId parts st newId now = TreeResult.ok t' ∧
        mapGet? t'.nodes newId
          = some ⟨newId, NodeRelation.regenerate, Role.assistant, parts, some P, now, st⟩ ∧
        mapGet? t'.activeChildByParent P = some newId ∧
        t'.headId = newId ∧
        (∀ i, i ≠ newId → mapGet? t'.nodes i = mapGet? t.nodes i) ∧
        getAlternatives t' P = getAlternatives t P
          ++ [⟨newId, NodeRelation.regenerate, Role.assistant, parts, some P, now, st⟩] ∧
        nodeA ∈ getAlternatives t P) ∧
    (∀ nodeA, mapGet? t.nodes targetId = some nodeA → nodeA.parentId = none →
      regenerateAssistant t targetId parts st newId now
        = TreeResult.thrown "regenerateTargetNodeId does not have a parentId.") := by
  constructor
  · intro nodeA P hA hP hPn hfresh hfreshkids hAkid
    set childNode : ChatNode :=
      ⟨newId, NodeRelation.regenerate, Role.assistant, parts, some P, now, st⟩ with hchild
    set tNew : ChatTree :=
      ⟨t.rootId, newId, mapSet t.nodes newId childNode,
        mapSet t.children P (pushUnique (getChildren t P) newId),
        mapSet t.activeChildByParent P newId⟩ with htNew
    have hkids : getChildren tNew P = getChildren t P ++ [newId] := by
      rw [htNew]
      simp only [getChildren, mapGet?_set_self, Option.getD_some, pushUnique]
      have h2 : newId ∉ (mapGet? t.children P).getD [] := hfreshkids
      rw [if_neg h2]
    refine ⟨tNew, ?_, ?_, ?_, rfl, ?_, ?_, ?_⟩
    · simp [regenerateAssistant, hA, hP, addChildAndAutoActivate, hPn, liftExcept,
        setNewChild, htNew, hchild]
    · exact mapGet?_set_self _ _ _
    · exact mapGet?_set_self _ _ _
    · intro i hi
      exact mapGet?_set_ne _ _ _ _ (Ne.symm hi)
    · rw [getAlternatives, hkids, List.filterMap_append]
      congr 1
      · refine List.filterMap_congr ?_
        intro c hc
        have hcne : newId ≠ c := by
          intro hcontra
          exact hfreshkids (hcontra ▸ hc)
        exact mapGet?_set_ne _ _ _ _ hcne
      · simp [htNew, mapGet?_set_self, hchild]
    · exact List.mem_filterMap.mpr ⟨targetId, hAkid, hA⟩
  · intro nodeR hA hroot
    simp only [regenerateAssistant, hA, hroot]

/-! ## Claim C10 — target lookup precondition of the guards -/

/-- C10: `regenerateAssistant`, `rewriteNode` and `setActive` read
`tree.nodes[targetId].parentId` without an existence check; when the
target id is present in the node mapping they never hit the
undefined-property access (they return a tree or the documented error),
and when it is absent all three crash on that access. -/
theorem node_lookup_guard (t : ChatTree) (targetId : String) (parts : List Part)
    (st : Option WorldState) (newId now : String) (moveHead : Bool) :
    (mapHas t.nodes targetId = true →
      regenerateAssistant t targetId parts st newId now ≠ TreeResult.crash ∧
      rewriteNode t targetId parts newId now ≠ TreeResult.crash ∧
      setActive t targetId moveHead ≠ TreeResult.crash) ∧
    (mapHas t.nodes targetId = false →
      regenerateAssistant t targetId parts st newId now = TreeResult.crash ∧
      rewriteNode t targetId parts newId now = TreeResult.crash ∧
      setActive t targetId moveHead = TreeResult.crash) := by
  constructor
  · intro h
    obtain ⟨node, hnode⟩ := (mapHas_iff _ _).mp h
    refine ⟨?_, ?_, ?_⟩
    · simp only [regenerateAssistant, hnode]
      cases node.parentId with
      | none => simp
      | some pid =>
        cases h2 : addChildAndAutoActivate t pid NodeRelation.regenerate Role.assistant
            parts st newId now with
        | error e => simp [liftExcept, h2]
        | ok t2 => simp [liftExcept, h2]
    · simp only [rewriteNode, hnode]
      cases node.parentId with
      | none => simp
      | some pid =>
        cases h2 : addChildAndAutoActivate t pid NodeRelation.rewrite node.role
            parts none newId now with
        | error e => simp [liftExcept, h2]
        | ok t2 => simp [liftExcept, h2]
    · simp only [setActive, hnode]
      cases node.parentId with
      | none => simp
      | some pid =>
        by_cases hk : targetId ∈ getChildren t pid
        · simp only [hk, if_true]
          cases moveHead with
          | true => simp
          | false =>
            cases h2 : recalculateHeadId { t with
                activeChildByParent := mapSet t.activeChildByParent pid targetId } with
            | none => simp [h2]
            | some t2 => simp [h2]
        · simp [hk]
  · intro h
    have hnone : mapGet? t.nodes targetId = none := (mapHas_eq_false_iff _ _).mp h
    exact ⟨by simp [regenerateAssistant, hnone], by simp [rewriteNode, hnone],
      by simp [setActive, hnone]⟩

/-! ## Concrete trees for witnesses -/

/-- Root-only tree. -/
def treeR : ChatTree := createEmptyTree "sys" none "r0" "t0"

/-- Root plus one user turn. -/
def treeRU : ChatTree :=
  match appendUser treeR "hi" "u1" "t1" with
  | Except.ok t => t
  | Except.error _ => treeR

/-- Root, user turn, assistant reply. -/
def treeRUA : ChatTree :=
  match replyAssistant treeRU "u1" [Part.text "yo"] none "a1" "t2" with
  | Except.ok t => t
  | Except.error _ => treeRU

/-- C3 witness: regenerating the concrete assistant node "a1" (and the
failure of regenerating the root "r0"). -/
theorem regenerate_nondestructive_witness :
    (∃ t', regenerateAssistant treeRUA "a1" [Part.text "yo2"] none "b1" "t3" = TreeResult.ok t' ∧
      mapGet? t'.nodes "b1"
        = some ⟨"b1", NodeRelation.regenerate, Role.assistant, [Part.text "yo2"], some "u1", "t3", none⟩ ∧
      mapGet? t'.activeChildByParent "u1" = some "b1" ∧
      t'.headId = "b1" ∧
      (∀ i, i ≠ "b1" → mapGet? t'.nodes i = mapGet? treeRUA.nodes i) ∧
      getAlternatives t' "u1" = getAlternatives treeRUA "u1"
        ++ [⟨"b1", NodeRelation.regenerate, Role.assistant, [Part.text "yo2"], some "u1", "t3", none⟩] ∧
      (⟨"a1", NodeRelation.reply, Role.assistant, [Part.text "yo"], some "u1", "t2", none⟩ : ChatNode)
        ∈ getAlternatives treeRUA "u1") ∧
    regenerateAssistant treeRUA "r0" [Part.text "yo2"] none "b1" "t3"
      = TreeResult.thrown "regenerateTargetNodeId does not have a parentId." := by
  refine ⟨?_, ?_⟩
  · exact (regenerate_nondestructive treeRUA "a1" [Part.text "yo2"] none "b1" "t3").1
      ⟨"a1", NodeRelation.reply, Role.assistant, [Part.text "yo"], some "u1", "t2", none⟩ "u1"
      rfl rfl rfl rfl (by decide) (by decide)
  · exact (regenerate_nondestructive treeRUA "r0" [Part.text "yo2"] none "b1" "t3").2
      ⟨"r0", NodeRelation.initiate, Role.system, [Part.text "sys"], none, "t0", none⟩ rfl rfl

/-- C10 witness: the guard theorem at a present target ("a1") and at a
missing target ("zz"). -/
theorem node_lookup_guard_witness :
    (regenerateAssistant treeRUA "a1" [] none "b1" "t3" ≠ TreeResult.crash ∧
      rewriteNode treeRUA "a1" [] "b1" "t3" ≠ TreeResult.crash ∧
      setActive treeRUA "a1" true ≠ TreeResult.crash) ∧
    (regenerateAssistant treeRUA "zz" [] none "b1" "t3" = TreeResult.crash ∧
      rewriteNode treeRUA "zz" [] "b1" "t3" = TreeResult.crash ∧
      setActive treeRUA "zz" true = TreeResult.crash) :=
  ⟨(node_lookup_guard treeRUA "a1" [] none "b1" "t3" true).1 rfl,
   (node_lookup_guard treeRUA "zz" [] none "b1" "t3" true).2 rfl⟩

/-! ## Structural invariants and reachable trees (claims C4, C7) -/

/-- The invariants of spec section 3/8: exactly one root (the only node
without a `parentId`); `headId` and every key and value of the
active-child mapping reference ids present in the node mapping; the
child-list mapping is the exact inverse of the nodes' `parentId` fields
(duplicate-free, no orphaned edges); and every non-root node's parent id
resolves to an existing node whose child list holds the node's own id. -/
def TreeInvariant (t : ChatTree) : Prop :=
  (∃ root, mapGet? t.nodes t.rootId = some root ∧ root.parentId = none) ∧
  (∀ id node, mapGet? t.nodes id = some node → node.parentId = none → id = t.rootId) ∧
  mapHas t.nodes t.headId = true ∧
  (∀ p c, mapGet? t.activeChildByParent p = some c →
    mapHas t.nodes p = true ∧ mapHas t.nodes c = true) ∧
  (∀ p c, c ∈ getChildren t p ↔ ∃ node, mapGet? t.nodes c = some node ∧ node.parentId = some p) ∧
  (∀ p, (getChildren t p).Nodup) ∧
  (∀ id node p, mapGet? t.nodes id = some node → node.parentId = some p →
    ∃ pn, mapGet? t.nodes p = some pn ∧ id ∈ getChildren t p)

/-- Every active-child edge goes from a parent to one of its own children. -/
def ActiveEdgesParent (t : ChatTree) : Prop :=
  ∀ p c, mapGet? t.activeChildByParent p = some c →
    ∃ node, mapGet? t.nodes c = some node ∧ node.parentId = some p

/-- The parent relation admits a rank function (parent edges cannot cycle). -/
def HasDepth (t : ChatTree) : Prop :=
  ∃ d : String → Nat, ∀ id node p, mapGet? t.nodes id = some node →
    node.parentId = some p → d p < d id

def StrongInv (t : ChatTree) : Prop :=
  TreeInvariant t ∧ ActiveEdgesParent t ∧ HasDepth t

/-- Trees reachable from `createEmptyTree` by the section 4.1 operations.
Guarded operations contribute only their successful (`ok`) outcomes;
`setHead` (which the source never checks) carries the claim's premise
that its node-id argument is present; `newId` freshness reflects UUID
generation never reusing an id. -/
inductive Reachable : ChatTree → Prop where
  | empty (prompt : String) (st : Option WorldState) (rootId now : String) :
      Reachable (createEmptyTree prompt st rootId now)
  | addChild (t : ChatTree) (parentId : String) (relation : NodeRelation) (role : Role)
      (parts : List Part) (state : Option WorldState) (newId now : String) (t2 : ChatTree)
      (hr : Reachable t) (hfresh : mapGet? t.nodes newId = none)
      (hop : addChildAndAutoActivate t parentId relation role parts state newId now
        = Except.ok t2) :
      Reachable t2
  | appendU (t : ChatTree) (text : String) (newId now : String) (t2 : ChatTree)
      (hr : Reachable t) (hfresh : mapGet? t.nodes newId = none)
      (hop : appendUser t text newId now = Except.ok t2) :
      Reachable t2
  | replyA (t : ChatTree) (parentUserId : String) (parts : List Part)
      (state : Option WorldState) (newId now : String) (t2 : ChatTree)
      (hr : Reachable t) (hfresh : mapGet? t.nodes newId = none)
      (hop : replyAssistant t parentUserId parts state newId now = Except.ok t2) :
      Reachable t2
  | regen (t : ChatTree) (targetId : String) (parts : List Part)
      (state : Option WorldState) (newId now : String) (t2 : ChatTree)
      (hr : Reachable t) (hfresh : mapGet? t.nodes newId = none)
      (hop : regenerateAssistant t targetId parts state newId now = TreeResult.ok t2) :
      Reachable t2
  | rewriteOp (t : ChatTree) (targetId : String) (parts : List Part) (newId now : String)
      (t2 : ChatTree)
      (hr : Reachable t) (hfresh : mapGet? t.nodes newId = none)
      (hop : rewriteNode t targetId parts newId now = TreeResult.ok t2) :
      Reachable t2
  | setAct (t : ChatTree) (targetId : String) (moveHead : Bool) (t2 : ChatTree)
      (hr : Reachable t)
      (hop : setActive t targetId moveHead = TreeResult.ok t2) :
      Reachable t2
  | setHd (t : ChatTree) (id : String)
      (hr : Reachable t) (hpresent : mapHas t.nodes id = true) :
      Reachable (setHead t id)
  | recalc (t : ChatTree) (t2 : ChatTree)
      (hr : Reachable t) (hop : recalculateHeadId t = some t2) :
      Reachable t2

theorem mapHas_of_get? {α : Type u} {m : JsMap α} {k : String} {v : α}
    (h : mapGet? m k = some v) : mapHas m k = true := by
  simp [mapHas, h]

theorem mapHas_set_preserve {α : Type u} {m : JsMap α} {k : String} (k2 : String) (v : α)
    (h : mapHas m k = true) : mapHas (mapSet m k2 v) k = true := by
  simp only [mapHas] at h ⊢
  exact mapGet?_set_isSome _ _ _ _ h

/-- A successful addChildAndAutoActivate determines the new tree record. -/
theorem addChild_ok_elim (t : ChatTree) (parentId : String) (relation : NodeRelation)
    (role : Role) (parts : List Part) (state : Option WorldState) (newId now : String)
    (t2 : ChatTree)
    (hop : addChildAndAutoActivate t parentId relation role parts state newId now
      = Except.ok t2) :
    mapHas t.nodes parentId = true ∧
    t2 = ⟨t.rootId, newId,
      mapSet t.nodes newId ⟨newId, relation, role, parts, some parentId, now, state⟩,
      mapSet t.children parentId (pushUnique (getChildren t parentId) newId),
      mapSet t.activeChildByParent parentId newId⟩ := by
  unfold addChildAndAutoActivate at hop
  cases hHas : mapHas t.nodes parentId with
  | false =>
    rw [hHas] at hop
    simp at hop
  | true =>
    rw [hHas] at hop
    simp only [setNewChild] at hop
    refine ⟨rfl, ?_⟩
    cases hop
    rfl

theorem strongInv_createEmptyTree (prompt : String) (st : Option WorldState)
    (rootId now : String) : StrongInv (createEmptyTree prompt st rootId now) := by
  refine ⟨⟨?_, ?_, ?_, ?_, ?_, ?_, ?_⟩, ?_, ?_⟩
  · refine ⟨⟨rootId, NodeRelation.initiate, Role.system, [Part.text prompt], none, now, st⟩, ?_, rfl⟩
    simp [createEmptyTree, mapGet?]
  · intro id node hget _
    simp only [createEmptyTree, mapGet?] at hget
    by_cases h : rootId = id
    · exact h.symm
    · simp [h] at hget
  · simp [createEmptyTree, mapHas, mapGet?]
  · intro p c hget
    simp [createEmptyTree, mapGet?] at hget
  · intro p c
    constructor
    · intro hmem
      simp [createEmptyTree, getChildren, mapGet?] at hmem
    · rintro ⟨node, hget, hpar⟩
      simp only [createEmptyTree, mapGet?] at hget
      by_cases h : rootId = c
      · simp [h] at hget
        rw [← hget] at hpar
        simp at hpar
      · simp [h] at hget
  · intro p
    simp [createEmptyTree, getChildren, mapGet?]
  · intro id node p hget hpar
    simp only [createEmptyTree, mapGet?] at hget
    by_cases h : rootId = id
    · simp [h] at hget
      rw [← hget] at hpar
      simp at hpar
    · simp [h] at hget
  · intro p c hget
    simp [createEmptyTree, mapGet?] at hget
  · refine ⟨fun _ => 0, ?_⟩
    intro id node p hget hpar
    simp only [createEmptyTree, mapGet?] at hget
    by_cases h : rootId = id
    · simp [h] at hget
      rw [← hget] at hpar
      simp at hpar
    · simp [h] at hget

theorem strongInv_addChild (t : ChatTree) (parentId : String) (relation : NodeRelation)
    (role : Role) (parts : List Part) (state : Option WorldState) (newId now : String)
    (t2 : ChatTree) (hinv : StrongInv t) (hfresh : mapGet? t.nodes newId = none)
    (hop : addChildAndAutoActivate t parentId relation role parts state newId now
      = Except.ok t2) :
    StrongInv t2 := by
  obtain ⟨⟨⟨root, hroot, hrootpar⟩, honlyroot, hhead, hactive, hinverse, hnodup, hparent⟩,
    hedges, d, hd⟩ := hinv
  obtain ⟨hHas, ht2⟩ := addChild_ok_elim t parentId relation role parts state newId now t2 hop
  subst ht2
  set childNode : ChatNode := ⟨newId, relation, role, parts, some parentId, now, state⟩ with hchild
  obtain ⟨pn, hpn⟩ := (mapHas_iff _ _).mp hHas
  have hPne : newId ≠ parentId := by
    intro h
    rw [← h, hfresh] at hpn
    cases hpn
  have hrootne : newId ≠ t.rootId := by
    intro h
    rw [← h, hfresh] at hroot
    cases hroot
  have hkidsfresh : newId ∉ getChildren t parentId := by
    intro hmem
    obtain ⟨node, hn, -⟩ := (hinverse parentId newId).mp hmem
    rw [hfresh] at hn
    cases hn
  have hget2self : mapGet? (mapSet t.nodes newId childNode) newId = some childNode :=
    mapGet?_set_self _ _ _
  have hget2other : ∀ i, newId ≠ i →
      mapGet? (mapSet t.nodes newId childNode) i = mapGet? t.nodes i := fun i hi =>
    mapGet?_set_ne _ _ _ _ hi
  have hfreshne : ∀ i node, mapGet? t.nodes i = some node → newId ≠ i := by
    intro i node hn h
    rw [← h, hfresh] at hn
    cases hn
  have hkidsP : getChildren
      (⟨t.rootId, newId, mapSet t.nodes newId childNode,
        mapSet t.children parentId (pushUnique (getChildren t parentId) newId),
        mapSet t.activeChildByParent parentId newId⟩ : ChatTree) parentId
      = getChildren t parentId ++ [newId] := by
    simp only [getChildren, mapGet?_set_self, Option.getD_some, pushUnique]
    have h2 : newId ∉ (mapGet? t.children parentId).getD [] := hkidsfresh
    rw [if_neg h2]
  have hkidsO : ∀ p, parentId ≠ p → getChildren
      (⟨t.rootId, newId, mapSet t.nodes newId childNode,
        mapSet t.children parentId (pushUnique (getChildren t parentId) newId),
        mapSet t.activeChildByParent parentId newId⟩ : ChatTree) p
      = getChildren t p := by
    intro p hp
    simp only [getChildren]
    rw [mapGet?_set_ne _ _ _ _ hp]
  refine ⟨⟨?_, ?_, ?_, ?_, ?_, ?_, ?_⟩, ?_, ?_⟩
  · exact ⟨root, by rw [hget2other _ hrootne]; exact hroot, hrootpar⟩
  · intro id node hget hpar
    by_cases hn : newId = id
    · rw [← hn, hget2self] at hget
      cases hget
      simp [hchild] at hpar
    · rw [hget2other _ hn] at hget
      exact honlyroot id node hget hpar
  · exact mapHas_of_get? hget2self
  · intro p c hget
    by_cases hp : parentId = p
    · rw [← hp, mapGet?_set_self] at hget
      cases hget
      exact ⟨by rw [← hp]; exact mapHas_set_preserve _ _ (mapHas_of_get? hpn),
        mapHas_of_get? hget2self⟩
    · rw [mapGet?_set_ne _ _ _ _ hp] at hget
      obtain ⟨h1, h2⟩ := hactive p c hget
      exact ⟨mapHas_set_preserve _ _ h1, mapHas_set_preserve _ _ h2⟩
  · intro p c
    by_cases hp : parentId = p
    · rw [← hp, hkidsP]
      constructor
      · intro hmem
        rcases List.mem_append.mp hmem with hmem | hmem
        · obtain ⟨node, hn, hpar⟩ := (hinverse parentId c).mp hmem
          exact ⟨node, by rw [hget2other _ (hfreshne c node hn)]; exact hn, hpar⟩
        · have hc : c = newId := by simpa using hmem
          subst hc
          exact ⟨childNode, hget2self, rfl⟩
      · rintro ⟨node, hn, hpar⟩
        by_cases hc : newId = c
        · subst hc
          simp
        · rw [hget2other _ hc] at hn
          exact List.mem_append_left _ ((hinverse parentId c).mpr ⟨node, hn, hpar⟩)
    · rw [hkidsO p hp]
      constructor
      · intro hmem
        obtain ⟨node, hn, hpar⟩ := (hinverse p c).mp hmem
        exact ⟨node, by rw [hget2other _ (hfreshne c node hn)]; exact hn, hpar⟩
      · rintro ⟨node, hn, hpar⟩
        by_cases hc : newId = c
        · rw [← hc, hget2self] at hn
          cases hn
          simp [hchild] at hpar
          exact absurd hpar hp
        · rw [hget2other _ hc] at hn
          exact (hinverse p c).mpr ⟨node, hn, hpar⟩
  · intro p
    by_cases hp : parentId = p
    · rw [← hp, hkidsP]
      rw [List.nodup_append]
      exact ⟨hnodup parentId, List.nodup_singleton _, by
        intro a ha hb
        have : a = newId := by simpa using hb
        rw [this] at ha
        exact hkidsfresh ha⟩
    · rw [hkidsO p hp]
      exact hnodup p
  · intro id node p hget hpar
    by_cases hn : newId = id
    · rw [← hn, hget2self] at hget
      cases hget
      simp only [hchild, Option.some.injEq] at hpar
      rw [← hpar]
      refine ⟨pn, by rw [hget2other _ hPne]; exact hpn, ?_⟩
      rw [← hn, hkidsP]
      simp
    · rw [hget2other _ hn] at hget
      obtain ⟨pn2, hpn2, hmem⟩ := hparent id node p hget hpar
      refine ⟨pn2, by rw [hget2other _ (hfreshne p pn2 hpn2)]; exact hpn2, ?_⟩
      by_cases hp : parentId = p
      · rw [← hp, hkidsP]
        rw [← hp] at hmem
        exact List.mem_append_left _ hmem
      · rw [hkidsO p hp]
        exact hmem
  · intro p c hget
    by_cases hp : parentId = p
    · rw [← hp, mapGet?_set_self] at hget
      cases hget
      exact ⟨childNode, hget2self, by simp [hchild, hp]⟩
    · rw [mapGet?_set_ne _ _ _ _ hp] at hget
      obtain ⟨node, hn, hpar⟩ := hedges p c hget
      exact ⟨node, by rw [hget2other _ (hfreshne c node hn)]; exact hn, hpar⟩
  · refine ⟨fun x => if x = newId then d parentId + 1 else d x, ?_⟩
    intro id node p hget hpar
    by_cases hn : newId = id
    · rw [← hn, hget2self] at hget
      cases hget
      simp only [hchild, Option.some.injEq] at hpar
      subst hpar
      subst hn
      show (if parentId = newId then d parentId + 1 else d parentId)
        < (if newId = newId then d parentId + 1 else d newId)
      rw [if_neg (fun h => hPne h.symm), if_pos rfl]
      exact Nat.lt_succ_self _
    · rw [hget2other _ hn] at hget
      have hpne2 : p ≠ newId := by
        obtain ⟨pn2, hpn2, -⟩ := hparent id node p hget hpar
        intro h
        exact hfreshne p pn2 hpn2 h.symm
      show (if p = newId then d parentId + 1 else d p)
        < (if id = newId then d parentId + 1 else d id)
      rw [if_neg hpne2, if_neg (fun h => hn h.symm)]
      exact hd id node p hget hpar

theorem strongInv_setHead (t : ChatTree) (id : String) (hinv : StrongInv t)
    (hpresent : mapHas t.nodes id = true) : StrongInv (setHead t id) := by
  obtain ⟨⟨hroot, honly, hhead, hactive, hinverse, hnodup, hparent⟩, hedges, hdepth⟩ := hinv
  exact ⟨⟨hroot, honly, hpresent, hactive, hinverse, hnodup, hparent⟩, hedges, hdepth⟩

theorem followActive?_mapHas (t : ChatTree) (f : Nat) (cur h : String)
    (hf : followActive? t f cur = some h) (hcur : mapHas t.nodes cur = true)
    (hact : ∀ p c, mapGet? t.activeChildByParent p = some c → mapHas t.nodes c = true) :
    mapHas t.nodes h = true := by
  induction f generalizing cur with
  | zero => simp [followActive?] at hf
  | succ f ih =>
    simp only [followActive?] at hf
    cases hnext : mapGet? t.activeChildByParent cur with
    | none =>
      rw [hnext] at hf
      cases hf
      exact hcur
    | some nxt =>
      rw [hnext] at hf
      exact ih nxt hf (hact cur nxt hnext)

theorem strongInv_recalc (t t2 : ChatTree) (hinv : StrongInv t)
    (hop : recalculateHeadId t = some t2) : StrongInv t2 := by
  obtain ⟨⟨⟨root, hroot, hrootpar⟩, honly, hhead, hactive, hinverse, hnodup, hparent⟩,
    hedges, hdepth⟩ := hinv
  unfold recalculateHeadId at hop
  cases hfollow : followActive? t (t.activeChildByParent.length + 1) t.rootId with
  | none =>
    rw [hfollow] at hop
    cases hop
  | some h =>
    rw [hfollow] at hop
    simp only [Option.map_some', Option.some.injEq] at hop
    have hh : mapHas t.nodes h = true :=
      followActive?_mapHas t _ _ _ hfollow (mapHas_of_get? hroot)
        (fun p c hg => (hactive p c hg).2)
    rw [← hop]
    exact ⟨⟨⟨root, hroot, hrootpar⟩, honly, hh, hactive, hinverse, hnodup, hparent⟩,
      hedges, hdepth⟩

theorem setActive_ok_elim (t : ChatTree) (targetId : String) (moveHead : Bool) (t2 : ChatTree)
    (hop : setActive t targetId moveHead = TreeResult.ok t2) :
    ∃ node pid, mapGet? t.nodes targetId = some node ∧ node.parentId = some pid ∧
      targetId ∈ getChildren t pid ∧
      ((moveHead = true ∧ t2 = { t with
          activeChildByParent := mapSet t.activeChildByParent pid targetId
          headId := targetId }) ∨
       (moveHead = false ∧ recalculateHeadId { t with
          activeChildByParent := mapSet t.activeChildByParent pid targetId } = some t2)) := by
  unfold setActive at hop
  cases hget : mapGet? t.nodes targetId with
  | none =>
    simp only [hget] at hop
    exact TreeResult.noConfusion hop
  | some node =>
    simp only [hget] at hop
    cases hpar : node.parentId with
    | none =>
      simp only [hpar] at hop
      exact TreeResult.noConfusion hop
    | some pid =>
      simp only [hpar] at hop
      by_cases hmem : targetId ∈ getChildren t pid
      · rw [if_pos hmem] at hop
        cases moveHead with
        | true =>
          rw [if_pos rfl] at hop
          simp only [TreeResult.ok.injEq] at hop
          exact ⟨node, pid, rfl, hpar, hmem, Or.inl ⟨rfl, hop.symm⟩⟩
        | false =>
          simp only [Bool.false_eq_true, if_false] at hop
          cases hrec : recalculateHeadId { t with
              activeChildByParent := mapSet t.activeChildByParent pid targetId } with
          | none =>
            simp only [hrec] at hop
            exact TreeResult.noConfusion hop
          | some t3 =>
            simp only [hrec, TreeResult.ok.injEq] at hop
            subst hop
            exact ⟨node, pid, rfl, hpar, hmem, Or.inr ⟨rfl, hrec⟩⟩
      · rw [if_neg hmem] at hop
        exact TreeResult.noConfusion hop

theorem strongInv_setActive (t : ChatTree) (targetId : String) (moveHead : Bool) (t2 : ChatTree)
    (hinv : StrongInv t) (hop : setActive t targetId moveHead = TreeResult.ok t2) :
    StrongInv t2 := by
  obtain ⟨node, pid, hget, hpar, hmem, hcase⟩ := setActive_ok_elim t targetId moveHead t2 hop
  obtain ⟨⟨⟨root, hroot, hrootpar⟩, honly, hhead, hactive, hinverse, hnodup, hparent⟩,
    hedges, d, hd⟩ := hinv
  have hpidHas : mapHas t.nodes pid = true := by
    obtain ⟨pn, hpn, -⟩ := hparent targetId node pid hget hpar
    exact mapHas_of_get? hpn
  have hactive2 : ∀ p c, mapGet? (mapSet t.activeChildByParent pid targetId) p = some c →
      mapHas t.nodes p = true ∧ mapHas t.nodes c = true := by
    intro p c hg
    by_cases hp : pid = p
    · subst hp
      rw [mapGet?_set_self] at hg
      cases hg
      exact ⟨hpidHas, mapHas_of_get? hget⟩
    · rw [mapGet?_set_ne _ _ _ _ hp] at hg
      exact hactive p c hg
  have hedges2 : ∀ p c, mapGet? (mapSet t.activeChildByParent pid targetId) p = some c →
      ∃ nd, mapGet? t.nodes c = some nd ∧ nd.parentId = some p := by
    intro p c hg
    by_cases hp : pid = p
    · subst hp
      rw [mapGet?_set_self] at hg
      cases hg
      exact ⟨node, hget, hpar⟩
    · rw [mapGet?_set_ne _ _ _ _ hp] at hg
      exact hedges p c hg
  have hmid : StrongInv { t with
      activeChildByParent := mapSet t.activeChildByParent pid targetId } :=
    ⟨⟨⟨root, hroot, hrootpar⟩, honly, hhead, hactive2, hinverse, hnodup, hparent⟩,
      hedges2, d, hd⟩
  rcases hcase with ⟨-, ht2⟩ | ⟨-, hrec⟩
  · subst ht2
    exact ⟨⟨⟨root, hroot, hrootpar⟩, honly, mapHas_of_get? hget, hactive2, hinverse,
      hnodup, hparent⟩, hedges2, d, hd⟩
  · exact strongInv_recalc _ _ hmid hrec

theorem liftExcept_ok_elim (e : Except String ChatTree) (t2 : ChatTree)
    (h : liftExcept e = TreeResult.ok t2) : e = Except.ok t2 := by
  cases e with
  | error msg => cases h
  | ok t3 =>
    cases h
    rfl

theorem regen_ok_elim (t : ChatTree) (targetId : String) (parts : List Part)
    (state : Option WorldState) (newId now : String) (t2 : ChatTree)
    (hop : regenerateAssistant t targetId parts state newId now = TreeResult.ok t2) :
    ∃ pid, addChildAndAutoActivate t pid NodeRelation.regenerate Role.assistant parts state
      newId now = Except.ok t2 := by
  unfold regenerateAssistant at hop
  cases hget : mapGet? t.nodes targetId with
  | none =>
    simp only [hget] at hop
    exact TreeResult.noConfusion hop
  | some node =>
    simp only [hget] at hop
    cases hpar : node.parentId with
    | none =>
      simp only [hpar] at hop
      exact TreeResult.noConfusion hop
    | some pid =>
      simp only [hpar] at hop
      exact ⟨pid, liftExcept_ok_elim _ _ hop⟩

theorem rewrite_ok_elim (t : ChatTree) (targetId : String) (parts : List Part)
    (newId now : String) (t2 : ChatTree)
    (hop : rewriteNode t targetId parts newId now = TreeResult.ok t2) :
    ∃ pid role, addChildAndAutoActivate t pid NodeRelation.rewrite role parts none
      newId now = Except.ok t2 := by
  unfold rewriteNode at hop
  cases hget : mapGet? t.nodes targetId with
  | none =>
    simp only [hget] at hop
    exact TreeResult.noConfusion hop
  | some node =>
    simp only [hget] at hop
    cases hpar : node.parentId with
    | none =>
      simp only [hpar] at hop
      exact TreeResult.noConfusion hop
    | some pid =>
      simp only [hpar] at hop
      exact ⟨pid, node.role, liftExcept_ok_elim _ _ hop⟩

/-- Every reachable tree satisfies the strong invariant. -/
theorem reachable_strongInv (t : ChatTree) (h : Reachable t) : StrongInv t := by
  induction h with
  | empty prompt st rootId now => exact strongInv_createEmptyTree prompt st rootId now
  | addChild t pid rel role parts st newId now t2 hr hfresh hop ih =>
    exact strongInv_addChild t pid rel role parts st newId now t2 ih hfresh hop
  | appendU t text newId now t2 hr hfresh hop ih =>
    exact strongInv_addChild t t.headId NodeRelation.reply Role.user [Part.text text] none
      newId now t2 ih hfresh hop
  | replyA t parentUserId parts st newId now t2 hr hfresh hop ih =>
    exact strongInv_addChild t parentUserId NodeRelation.reply Role.assistant parts st
      newId now t2 ih hfresh hop
  | regen t targetId parts st newId now t2 hr hfresh hop ih =>
    obtain ⟨pid, hop2⟩ := regen_ok_elim t targetId parts st newId now t2 hop
    exact strongInv_addChild t pid NodeRelation.regenerate Role.assistant parts st
      newId now t2 ih hfresh hop2
  | rewriteOp t targetId parts newId now t2 hr hfresh hop ih =>
    obtain ⟨pid, role, hop2⟩ := rewrite_ok_elim t targetId parts newId now t2 hop
    exact strongInv_addChild t pid NodeRelation.rewrite role parts none newId now t2 ih
      hfresh hop2
  | setAct t targetId moveHead t2 hr hop ih =>
    exact strongInv_setActive t targetId moveHead t2 ih hop
  | setHd t id hr hpresent ih =>
    exact strongInv_setHead t id ih hpresent
  | recalc t t2 hr hop ih =>
    exact strongInv_recalc t t2 ih hop

/-- C4: every tree reachable from `createEmptyTree` by the section 4.1
operations (given present node-id arguments, with fresh generated ids)
has exactly one parentless node (the root), a `headId` and an
active-child mapping referencing only present ids, a child-list mapping
that is the exact inverse of the nodes' `parentId` fields, and parent
ids that resolve to existing nodes whose child lists hold the child. -/
theorem tree_invariants (t : ChatTree) (h : Reachable t) : TreeInvariant t :=
  (reachable_strongInv t h).1

/-- The three-node chain used by the tree-claim witnesses is reachable. -/
theorem reachable_treeRUA : Reachable treeRUA := by
  refine Reachable.replyA treeRU "u1" [Part.text "yo"] none "a1" "t2" treeRUA ?_ rfl rfl
  refine Reachable.appendU treeR "hi" "u1" "t1" treeRU ?_ rfl rfl
  exact Reachable.empty "sys" none "r0" "t0"

/-- C4 witness: the invariant theorem applied to the concrete reachable
three-node chain. -/
theorem tree_invariants_witness : TreeInvariant treeRUA :=
  tree_invariants treeRUA reachable_treeRUA

/-! ## Claim C7 — termination of the unbounded recalculateHeadId loop -/

/-- The ids inspected by the recalculate walk, fuel-bounded. -/
def trajActive (tree : ChatTree) : Nat → String → List String
  | 0, _ => []
  | fuel + 1, cur =>
    cur :: (match mapGet? tree.activeChildByParent cur with
      | none => []
      | some nxt => trajActive tree fuel nxt)

theorem key_mem_of_mapGet? {α : Type u} {m : JsMap α} {k : String} {v : α}
    (h : mapGet? m k = some v) : k ∈ m.map (fun pr => pr.1) := by
  induction m with
  | nil => cases h
  | cons hd tl ih =>
    obtain ⟨k2, v2⟩ := hd
    by_cases h2 : k2 = k
    · simp [h2]
    · simp only [mapGet?_cons] at h
      rw [if_neg (by simpa using h2)] at h
      simp only [List.map_cons, List.mem_cons]
      exact Or.inr (ih h)

/-- If the walk exhausts its fuel, it inspected `fuel` ids, each of which
is a key of the active map. -/
theorem followActive?_none_traj (t : ChatTree) : ∀ (f : Nat) (cur : String),
    followActive? t f cur = none →
    (trajActive t f cur).length = f ∧
    ∀ x ∈ trajActive t f cur, x ∈ t.activeChildByParent.map (fun pr => pr.1) := by
  intro f
  induction f with
  | zero =>
    intro cur _
    exact ⟨rfl, by simp [trajActive]⟩
  | succ f ih =>
    intro cur hf
    simp only [followActive?] at hf
    cases hnext : mapGet? t.activeChildByParent cur with
    | none =>
      rw [hnext] at hf
      cases hf
    | some nxt =>
      rw [hnext] at hf
      obtain ⟨hlen, hmem⟩ := ih nxt hf
      constructor
      · simp [trajActive, hnext, hlen]
      · intro x hx
        simp only [trajActive, hnext, List.mem_cons] at hx
        rcases hx with hx | hx
        · subst hx
          exact key_mem_of_mapGet? hnext
        · exact hmem x hx

/-- Along the walk, a rank strictly increasing over active edges never
drops below the rank of the start. -/
theorem trajActive_rank_lower (t : ChatTree) (d : String → Nat)
    (hedge : ∀ a b, mapGet? t.activeChildByParent a = some b → d a < d b) :
    ∀ (f : Nat) (cur x : String), x ∈ trajActive t f cur → d cur ≤ d x := by
  intro f
  induction f with
  | zero =>
    intro cur x hx
    simp [trajActive] at hx
  | succ f ih =>
    intro cur x hx
    simp only [trajActive] at hx
    cases hnext : mapGet? t.activeChildByParent cur with
    | none =>
      rw [hnext] at hx
      simp at hx
      subst hx
      exact Nat.le_refl _
    | some nxt =>
      rw [hnext] at hx
      rcases List.mem_cons.mp hx with hx | hx
      · subst hx
        exact Nat.le_refl _
      · exact Nat.le_of_lt (Nat.lt_of_lt_of_le (hedge cur nxt hnext) (ih nxt x hx))

/-- With such a rank the walk never revisits an id. -/
theorem trajActive_nodup (t : ChatTree) (d : String → Nat)
    (hedge : ∀ a b, mapGet? t.activeChildByParent a = some b → d a < d b) :
    ∀ (f : Nat) (cur : String), (trajActive t f cur).Nodup := by
  intro f
  induction f with
  | zero =>
    intro cur
    simp [trajActive]
  | succ f ih =>
    intro cur
    simp only [trajActive]
    cases hnext : mapGet? t.activeChildByParent cur with
    | none => simp
    | some nxt =>
      refine List.nodup_cons.mpr ⟨?_, ih nxt⟩
      intro hmem
      have hle := trajActive_rank_lower t d hedge f nxt cur hmem
      have hlt := hedge cur nxt hnext
      omega

/-- Pigeonhole: under an active-edge rank, the walk with fuel
`|activeChildByParent| + 1` cannot exhaust it — the loop terminates. -/
theorem followActive?_terminates (t : ChatTree) (d : String → Nat)
    (hedge : ∀ a b, mapGet? t.activeChildByParent a = some b → d a < d b) (cur : String) :
    ∃ h, followActive? t (t.activeChildByParent.length + 1) cur = some h := by
  cases hf : followActive? t (t.activeChildByParent.length + 1) cur with
  | some h => exact ⟨h, rfl⟩
  | none =>
    exfalso
    obtain ⟨hlen, hmem⟩ := followActive?_none_traj t _ cur hf
    have hnodup := trajActive_nodup t d hedge (t.activeChildByParent.length + 1) cur
    have hsub : (trajActive t (t.activeChildByParent.length + 1) cur).toFinset ⊆
        (t.activeChildByParent.map (fun pr => pr.1)).toFinset := by
      intro x hx
      rw [List.mem_toFinset] at hx ⊢
      exact hmem x hx
    have h1 : (trajActive t (t.activeChildByParent.length + 1) cur).toFinset.card
        = t.activeChildByParent.length + 1 := by
      rw [List.toFinset_card_of_nodup hnodup, hlen]
    have h2 : (t.activeChildByParent.map (fun pr => pr.1)).toFinset.card
        ≤ t.activeChildByParent.length := by
      refine le_trans (List.toFinset_card_le _) ?_
      simp
    have h3 := Finset.card_le_card hsub
    omega

/-- A successful walk ends at a node with no active child, reached from
the start along active-child links. -/
theorem followActive?_spec (t : ChatTree) : ∀ (f : Nat) (cur h : String),
    followActive? t f cur = some h →
    mapGet? t.activeChildByParent h = none ∧
    Relation.ReflTransGen (fun a b => mapGet? t.activeChildByParent a = some b) cur h := by
  intro f
  induction f with
  | zero =>
    intro cur h hf
    simp [followActive?] at hf
  | succ f ih =>
    intro cur h hf
    simp only [followActive?] at hf
    cases hnext : mapGet? t.activeChildByParent cur with
    | none =>
      rw [hnext] at hf
      cases hf
      exact ⟨hnext, Relation.ReflTransGen.refl⟩
    | some nxt =>
      rw [hnext] at hf
      obtain ⟨h1, h2⟩ := ih nxt h hf
      exact ⟨h1, Relation.ReflTransGen.head hnext h2⟩

theorem goActivePath_length_le (t : ChatTree) : ∀ (f : Nat) (cur : String),
    (goActivePath t f cur).length ≤ f := by
  intro f
  induction f with
  | zero =>
    intro cur
    simp [goActivePath]
  | succ f ih =>
    intro cur
    simp only [goActivePath]
    cases mapGet? t.nodes cur with
    | none => simp
    | some node =>
      cases hnext : mapGet? t.activeChildByParent cur with
      | none => simp
      | some nxt =>
        simp only [List.length_cons]
        exact Nat.succ_le_succ (ih nxt)

/-- C7: on every reachable tree (whose active-child chain from the root,
as proved from the invariants, never revisits a node), the unbounded
`recalculateHeadId` loop terminates: it returns the tree unchanged except
that `headId` is the node reached from the root along active-child links
that has no active child.  `getActivePathNodes`, by contrast, is bounded
by its `limit` argument. -/
theorem recalculate_head_terminates (t : ChatTree) (h : Reachable t) :
    ∃ t2, recalculateHeadId t = some t2 ∧
      t2.rootId = t.rootId ∧ t2.nodes = t.nodes ∧ t2.children = t.children ∧
      t2.activeChildByParent = t.activeChildByParent ∧
      mapGet? t.activeChildByParent t2.headId = none ∧
      Relation.ReflTransGen (fun a b => mapGet? t.activeChildByParent a = some b)
        t.rootId t2.headId ∧
      (∀ lim, (getActivePathNodes t lim).length ≤ lim) := by
  obtain ⟨-, hedges, d, hd⟩ := reachable_strongInv t h
  have hedge : ∀ a b, mapGet? t.activeChildByParent a = some b → d a < d b := by
    intro a b hab
    obtain ⟨node, hn, hpar⟩ := hedges a b hab
    exact hd b node a hn hpar
  obtain ⟨hh, hfollow⟩ := followActive?_terminates t d hedge t.rootId
  obtain ⟨h1, h2⟩ := followActive?_spec t _ _ _ hfollow
  refine ⟨{ t with headId := hh }, ?_, rfl, rfl, rfl, rfl, h1, h2, ?_⟩
  · unfold recalculateHeadId
    rw [hfollow]
    rfl
  · intro lim
    exact goActivePath_length_le t lim t.rootId

/-- C7 witness: the termination theorem applied to the concrete reachable
three-node chain. -/
theorem recalculate_head_terminates_witness :
    ∃ t2, recalculateHeadId treeRUA = some t2 ∧
      t2.rootId = treeRUA.rootId ∧ t2.nodes = treeRUA.nodes ∧
      t2.children = treeRUA.children ∧
      t2.activeChildByParent = treeRUA.activeChildByParent ∧
      mapGet? treeRUA.activeChildByParent t2.headId = none ∧
      Relation.ReflTransGen (fun a b => mapGet? treeRUA.activeChildByParent a = some b)
        treeRUA.rootId t2.headId ∧
      (∀ lim, (getActivePathNodes treeRUA lim).length ≤ lim) :=
  recalculate_head_terminates treeRUA reachable_treeRUA

end CanonWeaver
